import Mathlib

/-!
Verification of the passive HTTP-request reconstruction and identifier-extraction
pipeline of deadlock-api-ingest.

The development shallowly embeds the Rust core:
* `src/utils.rs` — `Salts`, `Salts::from_url`, `Salts::ingest`;
* `src/http/parser.rs` — `find_http_in_packet`, `parse_http_request`,
  `unfold_http_headers`;
* `src/stream/buffer.rs` — `StreamBuffer`;
* `src/packet/tcp_stream_id.rs` — `TcpStreamId` and its packet parsers;
* `src/http_listener.rs` — `HttpListener::extract_salts` and the `listen` loop.

Bytes are modelled as `Nat` (values < 256 by convention), Rust strings as
`List Char`, machine integers as `Nat` with explicit range checks where the
source performs them.  Wall-clock instants are modelled as `Nat` timestamps
supplied by the environment, and the network is modelled as an oracle giving
the response to each POST attempt.
-/

namespace Ingest

/-! ## Generic string / byte-sequence helpers (models of Rust `str` methods) -/

/-- Model of `memchr::memmem::find` / `str::find` on a substring pattern:
index of the first occurrence of `pat` in `hay`, if any.  An empty pattern
occurs at index 0. -/
def findSub {α : Type} [DecidableEq α] : List α → List α → Option Nat
  | [], pat => if pat.isPrefixOf [] then some 0 else none
  | a :: t, pat =>
    if pat.isPrefixOf (a :: t) then some 0
    else (findSub t pat).map (· + 1)

/-- Model of Rust `str::split_once(c)` for a one-character pattern:
split at the first occurrence of `c`, excluding the separator. -/
def splitOnceChar : List Char → Char → Option (List Char × List Char)
  | [], _ => none
  | x :: xs, c =>
    if x = c then some ([], xs)
    else (splitOnceChar xs c).map (fun p => (x :: p.1, p.2))

/-- Model of Rust `str::split_once(pat)` for a string pattern. -/
def splitOnceSub (l pat : List Char) : Option (List Char × List Char) :=
  (findSub l pat).map (fun i => (l.take i, l.drop (i + pat.length)))

/-- Model of Rust `str::rsplit_once(c)`: split at the last occurrence of `c`. -/
def rsplitOnceChar (l : List Char) (c : Char) : Option (List Char × List Char) :=
  (splitOnceChar l.reverse c).map (fun p => (p.2.reverse, p.1.reverse))

/-- Model of Rust `str::starts_with(pat)`. -/
def startsWith (pat l : List Char) : Bool := pat.isPrefixOf l

/-- Model of Rust `str::ends_with(pat)`. -/
def endsWith (pat l : List Char) : Bool := pat.isSuffixOf l

/-- Model of Rust `str::strip_prefix(pat)`. -/
def stripPre (pat l : List Char) : Option (List Char) :=
  if pat.isPrefixOf l then some (l.drop pat.length) else none

/-- Model of Rust `str::strip_suffix(pat)`. -/
def stripSuf (pat l : List Char) : Option (List Char) :=
  if pat.isSuffixOf l then some (l.take (l.length - pat.length)) else none

/-- The Unicode `White_Space` property, which Rust's `char::is_whitespace`
tests (used by `str::trim` and `str::split_whitespace`). -/
def rustIsWS (c : Char) : Bool :=
  c = ' ' ∨ c = '\t' ∨ c = '\n' ∨ c = '\x0b' ∨ c = '\x0c' ∨ c = '\r' ∨
  c.toNat = 0x85 ∨ c.toNat = 0xA0 ∨ c.toNat = 0x1680 ∨
  (0x2000 ≤ c.toNat ∧ c.toNat ≤ 0x200A) ∨
  c.toNat = 0x2028 ∨ c.toNat = 0x2029 ∨ c.toNat = 0x202F ∨
  c.toNat = 0x205F ∨ c.toNat = 0x3000

/-- Model of Rust `str::trim`. -/
def trimL (l : List Char) : List Char :=
  ((l.dropWhile rustIsWS).reverse.dropWhile rustIsWS).reverse

/-- Model of Rust `str::split_whitespace` (auxiliary recursion, `acc` holds the
current word reversed). -/
def splitWSGo : List Char → List Char → List (List Char)
  | [], acc => if acc.isEmpty then [] else [acc.reverse]
  | c :: rest, acc =>
    if rustIsWS c then
      if acc.isEmpty then splitWSGo rest [] else acc.reverse :: splitWSGo rest []
    else splitWSGo rest (c :: acc)

/-- Model of Rust `str::split_whitespace`: the whitespace-separated words, with
no empty words. -/
def splitWS (l : List Char) : List (List Char) := splitWSGo l []

/-- Model of `u8::to_ascii_lowercase` on chars. -/
def asciiLower (c : Char) : Char :=
  if 'A' ≤ c ∧ c ≤ 'Z' then Char.ofNat (c.toNat + 32) else c

/-- Model of Rust `str::eq_ignore_ascii_case`. -/
def eqIgnoreCase (a b : List Char) : Bool :=
  a.map asciiLower = b.map asciiLower

/-- The numeric value of a string of ASCII digits. -/
def digitsVal (l : List Char) : Nat :=
  l.foldl (fun a c => a * 10 + (c.toNat - 48)) 0

/-- Parse an all-digit string against a bound. -/
def parseUNatGo (bound : Nat) (digits : List Char) : Option Nat :=
  if digits.isEmpty then none
  else if digits.all Char.isDigit then
    if digitsVal digits ≤ bound then some (digitsVal digits) else none
  else none

/-- Model of Rust `str::parse::<uN>()` with maximum value `bound`
(`u32::MAX` or `u64::MAX`): an optional leading `+`, then at least one ASCII
digit, and the value must not exceed the bound. -/
def parseUNat (bound : Nat) (s : List Char) : Option Nat :=
  parseUNatGo bound (if s.head? = some '+' then s.tail else s)

def U32MAX : Nat := 4294967295
def U64MAX : Nat := 18446744073709551615

/-! ## `Salts` and `Salts::from_url` (src/utils.rs) -/

/-- The identifier record of `src/utils.rs`.  `match_id` is a `u64` in the
source, `cluster_id` and the two salts `u32`; all are parsed with their
width's bound. -/
structure Salts where
  match_id : Nat
  cluster_id : Nat
  metadata_salt : Option Nat
  replay_salt : Option Nat
deriving DecidableEq, Repr

def metaSuffix : List Char := ".meta.bz2".data
def demSuffix : List Char := ".dem.bz2".data
def replayPre : List Char := "http://replay".data
def valvePat : List Char := ".valve.net/".data

/-- Model of `Salts::from_url` (src/utils.rs lines 35-68).  Note that the
source parses the two salt fields with `.ok()` (no `?`), so a salt that fails
to parse leaves the field `None` without aborting, whereas `cluster_id` and
`match_id` use `.ok()?` and abort the whole parse. -/
def Salts.from_url (url : List Char) : Option Salts :=
  let base_url := ((splitOnceChar url '?').map Prod.fst).getD url
  (stripPre replayPre base_url).bind fun stripped =>
  (splitOnceSub stripped valvePat).bind fun cr =>
  ((rsplitOnceChar cr.2 '/').map Prod.snd).bind fun name =>
  if endsWith metaSuffix name then
    (stripSuf metaSuffix name).bind fun name2 =>
    (splitOnceChar name2 '_').bind fun ms =>
    (parseUNat U32MAX cr.1).bind fun cid =>
    (parseUNat U64MAX ms.1).bind fun mid =>
    some ⟨mid, cid, parseUNat U32MAX ms.2, none⟩
  else if endsWith demSuffix name then
    (stripSuf demSuffix name).bind fun name2 =>
    (splitOnceChar name2 '_').bind fun ms =>
    (parseUNat U32MAX cr.1).bind fun cid =>
    (parseUNat U64MAX ms.1).bind fun mid =>
    some ⟨mid, cid, none, parseUNat U32MAX ms.2⟩
  else none

/-! ## Rust `str::lines` -/

/-- Auxiliary recursion for `str::split_inclusive('\n')`: pieces end with the
newline they contain; no trailing empty piece is produced.  `acc` holds the
current piece reversed. -/
def splitIncNLGo : List Char → List Char → List (List Char)
  | [], acc => if acc.isEmpty then [] else [acc.reverse]
  | c :: rest, acc =>
    if c = '\n' then (acc.reverse ++ ['\n']) :: splitIncNLGo rest []
    else splitIncNLGo rest (c :: acc)

/-- Model of Rust `str::split_inclusive('\n')`. -/
def splitIncNL (l : List Char) : List (List Char) := splitIncNLGo l []

/-- Strip a trailing `"\n"` and then a trailing `'\r'` (only when the `'\n'`
was present), as `str::lines` does on each inclusive piece. -/
def stripLineEnd (l : List Char) : List Char :=
  match l.reverse with
  | '\n' :: '\r' :: rest => rest.reverse
  | '\n' :: rest => rest.reverse
  | _ => l

/-- Model of Rust `str::lines`. -/
def rustLines (l : List Char) : List (List Char) :=
  (splitIncNL l).map stripLineEnd

/-! ## `unfold_http_headers` and `parse_http_request` (src/http/parser.rs) -/

/-- Whether a line is an obsolete-folding continuation line
(`line.starts_with(' ') || line.starts_with('\t')`). -/
def isContLine : List Char → Bool
  | c :: _ => c = ' ' ∨ c = '\t'
  | [] => false

/-- The body of the `for line in lines` loop of `unfold_http_headers`:
`current` is the `current_line` accumulator; on exit the pending
`current_line` is flushed when non-empty. -/
def unfoldGo : List (List Char) → List Char → List Char
  | [], current => if current.isEmpty then [] else current ++ ['\r', '\n']
  | line :: rest, current =>
    if isContLine line then unfoldGo rest (current ++ ' ' :: trimL line)
    else if current.isEmpty then unfoldGo rest line
    else (current ++ ['\r', '\n']) ++ unfoldGo rest line

/-- Model of `unfold_http_headers` (src/http/parser.rs lines 60-96). -/
def unfold_http_headers (http_data : List Char) : List Char :=
  match rustLines http_data with
  | [] => []
  | first :: rest => (first ++ ['\r', '\n']) ++ unfoldGo rest []

def httpPre : List Char := "http://".data
def httpsPre : List Char := "https://".data
def hostHdr : List Char := "host".data

/-- The closure passed to `find_map` when scanning header lines for `Host`. -/
def hostOfLine (line : List Char) : Option (List Char) :=
  (splitOnceChar line ':').bind fun nv =>
    if eqIgnoreCase (trimL nv.1) hostHdr then some (trimL nv.2) else none

/-- The header scan of `parse_http_request`:
`lines.map(str::trim).take_while(|l| !l.is_empty()).find_map(...)`. -/
def findHostHeader (ls : List (List Char)) : Option (List Char) :=
  ((ls.map trimL).takeWhile (fun l => ¬ l.isEmpty)).findSome? hostOfLine

/-- The tail of `parse_http_request` once the request target has been
extracted: strip leading slashes, return an absolute-URI target directly,
otherwise compose `http://<host>/<path>` from the `Host` header. -/
def parseTarget (target : List Char) (rest : List (List Char)) :
    Option (List Char) :=
  let path := target.dropWhile (· = '/')
  if startsWith httpPre path ∨ startsWith httpsPre path then some path
  else
    let path2 := path.dropWhile (· = '/')
    (findHostHeader rest).map (fun host => httpPre ++ host ++ '/' :: path2)

/-- The request-line handling of `parse_http_request`: split the trimmed first
line on whitespace, require a method and a target (`parts.next()?` twice). -/
def parseRequestLines (first : List Char) (rest : List (List Char)) :
    Option (List Char) :=
  match splitWS (trimL first) with
  | [] => none
  | [_] => none
  | _method :: target :: _ => parseTarget target rest

/-- Model of `parse_http_request` (src/http/parser.rs lines 26-55). -/
def parse_http_request (http_data : List Char) : Option (List Char) :=
  let unfolded := unfold_http_headers http_data
  match rustLines unfolded with
  | [] => none
  | first :: rest => parseRequestLines first rest

/-! ## UTF-8 decoding and `find_http_in_packet` -/

/-- A UTF-8 continuation byte. -/
def utf8Cont (b : Nat) : Bool := 0x80 ≤ b ∧ b ≤ 0xBF

/-- Valid range of the first continuation byte of a three-byte sequence led by
`b` (excludes overlong encodings and surrogates). -/
def utf8Cont3 (b b1 : Nat) : Bool :=
  if b = 0xE0 then 0xA0 ≤ b1 ∧ b1 ≤ 0xBF
  else if b = 0xED then 0x80 ≤ b1 ∧ b1 ≤ 0x9F
  else utf8Cont b1

/-- Valid range of the first continuation byte of a four-byte sequence led by
`b` (excludes overlong encodings and values above U+10FFFF). -/
def utf8Cont4 (b b1 : Nat) : Bool :=
  if b = 0xF0 then 0x90 ≤ b1 ∧ b1 ≤ 0xBF
  else if b = 0xF4 then 0x80 ≤ b1 ∧ b1 ≤ 0x8F
  else utf8Cont b1

/-- The replacement character U+FFFD. -/
def replChar : Char := Char.ofNat 0xFFFD

/-- Recursion for `utf8Lossy`, structural on a fuel argument (the fuel is set
to the byte count and every step consumes at least one byte, so the fuel never
runs out on the actual argument). -/
def utf8LossyGo : Nat → List Nat → List Char
  | 0, _ => []
  | _ + 1, [] => []
  | fuel + 1, b :: rest =>
    if b < 0x80 then Char.ofNat b :: utf8LossyGo fuel rest
    else if 0xC2 ≤ b ∧ b ≤ 0xDF then
      match rest with
      | [] => [replChar]
      | b1 :: rest1 =>
        if utf8Cont b1 then
          Char.ofNat ((b - 0xC0) * 64 + (b1 - 0x80)) :: utf8LossyGo fuel rest1
        else replChar :: utf8LossyGo fuel (b1 :: rest1)
    else if 0xE0 ≤ b ∧ b ≤ 0xEF then
      match rest with
      | [] => [replChar]
      | b1 :: rest1 =>
        if utf8Cont3 b b1 then
          match rest1 with
          | [] => [replChar]
          | b2 :: rest2 =>
            if utf8Cont b2 then
              Char.ofNat ((b - 0xE0) * 4096 + (b1 - 0x80) * 64 + (b2 - 0x80)) ::
                utf8LossyGo fuel rest2
            else replChar :: utf8LossyGo fuel (b2 :: rest2)
        else replChar :: utf8LossyGo fuel (b1 :: rest1)
    else if 0xF0 ≤ b ∧ b ≤ 0xF4 then
      match rest with
      | [] => [replChar]
      | b1 :: rest1 =>
        if utf8Cont4 b b1 then
          match rest1 with
          | [] => [replChar]
          | b2 :: rest2 =>
            if utf8Cont b2 then
              match rest2 with
              | [] => [replChar]
              | b3 :: rest3 =>
                if utf8Cont b3 then
                  Char.ofNat ((b - 0xF0) * 262144 + (b1 - 0x80) * 4096 +
                      (b2 - 0x80) * 64 + (b3 - 0x80)) :: utf8LossyGo fuel rest3
                else replChar :: utf8LossyGo fuel (b3 :: rest3)
            else replChar :: utf8LossyGo fuel (b2 :: rest2)
        else replChar :: utf8LossyGo fuel (b1 :: rest1)
    else replChar :: utf8LossyGo fuel rest

/-- Model of `String::from_utf8_lossy`: decodes UTF-8, replacing each maximal
invalid subpart with U+FFFD.  (`find_http_in_packet` first tries
`str::from_utf8` and falls back to the lossy conversion; on valid input the
two agree, so the lossy decoder models both paths.) -/
def utf8Lossy (data : List Nat) : List Char := utf8LossyGo data.length data

/-- The bytes of `b"GET "`. -/
def GETbytes : List Nat := [71, 69, 84, 32]

/-- The bytes of `b"\r\n\r\n"`. -/
def CRLFCRLFbytes : List Nat := [13, 10, 13, 10]

/-- Model of `find_http_in_packet` (src/http/parser.rs lines 10-23). -/
def find_http_in_packet (data : List Nat) : Option (List Char) :=
  (findSub data GETbytes).map fun pos =>
    let r := data.drop pos
    let region := match findSub r CRLFCRLFbytes with
      | some endi => r.take (endi + 4)
      | none => r.take (min r.length 1024)
    utf8Lossy region

/-- ASCII bytes of a string, for building packet payloads. -/
def strBytes (s : String) : List Nat := s.data.map Char.toNat

/-! ## `HttpListener::extract_salts` (src/http_listener.rs lines 89-101) -/

/-- Model of `HttpListener::extract_salts`: locate an HTTP request in the
payload, parse it to a URL, require a `.meta.bz2`/`.dem.bz2` substring in the
query-stripped URL, then run `Salts::from_url`. -/
def extract_salts (payload : List Nat) : Option Salts :=
  (find_http_in_packet payload).bind fun http_packet =>
  (parse_http_request http_packet).bind fun url =>
  let base_url := ((splitOnceChar url '?').map Prod.fst).getD url
  if ¬ (findSub base_url metaSuffix).isSome ∧
      ¬ (findSub base_url demSuffix).isSome then none
  else Salts.from_url url

/-! ## `StreamBuffer` (src/stream/buffer.rs) -/

def MAX_STREAM_BUFFER_SIZE : Nat := 16 * 1024

/-- The per-connection reassembly buffer.  `Instant` timestamps are modelled
as `Nat` values supplied by the environment at each operation. -/
structure StreamBuffer where
  data : List Nat
  last_activity : Nat
deriving DecidableEq, Repr

/-- `StreamBuffer::new()` at instant `now`. -/
def StreamBuffer.new (now : Nat) : StreamBuffer := ⟨[], now⟩

/-- `StreamBuffer::append`: no-op when the result would exceed the byte cap,
otherwise concatenate and refresh the activity timestamp. -/
def StreamBuffer.append (b : StreamBuffer) (payload : List Nat) (now : Nat) :
    StreamBuffer :=
  if b.data.length + payload.length ≤ MAX_STREAM_BUFFER_SIZE then
    ⟨b.data ++ payload, now⟩
  else b

/-- `StreamBuffer::clear`. -/
def StreamBuffer.clear (_b : StreamBuffer) (now : Nat) : StreamBuffer := ⟨[], now⟩

/-- `StreamBuffer::is_stale(timeout)`: elapsed time since last activity
exceeds the timeout. -/
def StreamBuffer.is_stale (b : StreamBuffer) (timeout now : Nat) : Bool :=
  now - b.last_activity > timeout

/-- One abstract operation on a `StreamBuffer`, for stating lifetime
invariants. -/
inductive BufOp
  | append (payload : List Nat) (now : Nat)
  | clear (now : Nat)

/-- Apply one operation. -/
def BufOp.apply (b : StreamBuffer) : BufOp → StreamBuffer
  | .append payload now => b.append payload now
  | .clear now => b.clear now

/-- Run a sequence of operations from a fresh buffer. -/
def runBufOps (t0 : Nat) (ops : List BufOp) : StreamBuffer :=
  ops.foldl BufOp.apply (StreamBuffer.new t0)

/-! ## `TcpStreamId` (src/packet/tcp_stream_id.rs) -/

/-- Model of `core::net::IpAddr`: the two address families are distinct
constructors holding the raw octets / groups. -/
inductive IpAddr
  | v4 (a b c d : Nat)
  | v6 (a b c d e f g h : Nat)
deriving DecidableEq, Repr

/-- The connection 5-tuple. -/
structure TcpStreamId where
  src_ip : IpAddr
  dst_ip : IpAddr
  src_port : Nat
  dst_port : Nat
  protocol : Nat
deriving DecidableEq, Repr

/-- `u16::from_be_bytes([hi, lo])`. -/
def u16be (hi lo : Nat) : Nat := hi * 256 + lo

def IPPROTO_TCP : Nat := 6
def ETHERTYPE_IPV4 : Nat := 0x0800
def ETHERTYPE_IPV6 : Nat := 0x86DD

/-- Model of `TcpStreamId::from_ipv4_packet` (src/packet/tcp_stream_id.rs
lines 107-151).  Byte indexing after the length checks is modelled with
`List.getD`; the checks make the default unreachable. -/
def TcpStreamId.from_ipv4_packet (packet : List Nat) : Option TcpStreamId :=
  if packet.length < 20 then none
  else
    let protocol := packet.getD 9 0
    if protocol ≠ IPPROTO_TCP then none
    else
      let ihl := packet.getD 0 0 % 16 * 4
      if packet.length < ihl + 20 then none
      else
        let src_ip := IpAddr.v4 (packet.getD 12 0) (packet.getD 13 0)
          (packet.getD 14 0) (packet.getD 15 0)
        let dst_ip := IpAddr.v4 (packet.getD 16 0) (packet.getD 17 0)
          (packet.getD 18 0) (packet.getD 19 0)
        let tcp_header := packet.drop ihl
        if tcp_header.length < 4 then none
        else some ⟨src_ip, dst_ip,
          u16be (tcp_header.getD 0 0) (tcp_header.getD 1 0),
          u16be (tcp_header.getD 2 0) (tcp_header.getD 3 0), protocol⟩

/-- Model of `TcpStreamId::from_ipv6_packet` (src/packet/tcp_stream_id.rs
lines 154-208). -/
def TcpStreamId.from_ipv6_packet (packet : List Nat) : Option TcpStreamId :=
  if packet.length < 40 then none
  else
    let next_header := packet.getD 6 0
    if next_header ≠ IPPROTO_TCP then none
    else
      let src_ip := IpAddr.v6
        (u16be (packet.getD 8 0) (packet.getD 9 0))
        (u16be (packet.getD 10 0) (packet.getD 11 0))
        (u16be (packet.getD 12 0) (packet.getD 13 0))
        (u16be (packet.getD 14 0) (packet.getD 15 0))
        (u16be (packet.getD 16 0) (packet.getD 17 0))
        (u16be (packet.getD 18 0) (packet.getD 19 0))
        (u16be (packet.getD 20 0) (packet.getD 21 0))
        (u16be (packet.getD 22 0) (packet.getD 23 0))
      let dst_ip := IpAddr.v6
        (u16be (packet.getD 24 0) (packet.getD 25 0))
        (u16be (packet.getD 26 0) (packet.getD 27 0))
        (u16be (packet.getD 28 0) (packet.getD 29 0))
        (u16be (packet.getD 30 0) (packet.getD 31 0))
        (u16be (packet.getD 32 0) (packet.getD 33 0))
        (u16be (packet.getD 34 0) (packet.getD 35 0))
        (u16be (packet.getD 36 0) (packet.getD 37 0))
        (u16be (packet.getD 38 0) (packet.getD 39 0))
      let tcp_header := packet.drop 40
      if tcp_header.length < 4 then none
      else some ⟨src_ip, dst_ip,
        u16be (tcp_header.getD 0 0) (tcp_header.getD 1 0),
        u16be (tcp_header.getD 2 0) (tcp_header.getD 3 0), next_header⟩

/-- Model of `TcpStreamId::from_ethernet_frame`. -/
def TcpStreamId.from_ethernet_frame (packet : List Nat) : Option TcpStreamId :=
  if packet.length < 14 then none
  else
    let ethertype := u16be (packet.getD 12 0) (packet.getD 13 0)
    let ip_packet := packet.drop 14
    if ethertype = ETHERTYPE_IPV4 then TcpStreamId.from_ipv4_packet ip_packet
    else if ethertype = ETHERTYPE_IPV6 then TcpStreamId.from_ipv6_packet ip_packet
    else none

/-- Model of `TcpStreamId::from_ip_packet`. -/
def TcpStreamId.from_ip_packet (packet : List Nat) : Option TcpStreamId :=
  if packet.isEmpty then none
  else
    let version := packet.getD 0 0 / 16 % 16
    if version = 4 then TcpStreamId.from_ipv4_packet packet
    else if version = 6 then TcpStreamId.from_ipv6_packet packet
    else none

/-- Model of `TcpStreamId::from_packet`: Ethernet framing first, then raw IP. -/
def TcpStreamId.from_packet (packet : List Nat) : Option TcpStreamId :=
  match TcpStreamId.from_ethernet_frame packet with
  | some id => some id
  | none => TcpStreamId.from_ip_packet packet

/-! ## `Salts::ingest` (src/utils.rs lines 70-98)

The network is modelled as an oracle mapping the attempt number (1-based) to
the outcome of that POST.  `ingest` returns the result together with the
number of POST requests actually issued. -/

/-- Outcome of one POST to the collector, as `ureq` reports it. -/
inductive NetResp
  | ok (status : Nat)
  | errStatus (code : Nat)
  | errOther
deriving DecidableEq, Repr

/-- The error type of src/error.rs (the variants `ingest` can produce). -/
inductive IngestError
  | matchIdTooLarge
  | failedToIngest
  | ureq
deriving DecidableEq, Repr

/-- A 2xx status. -/
def isSuccessStatus (s : Nat) : Bool := 200 ≤ s ∧ s < 300

/-- The retry loop of `Salts::ingest`, unrolled on a fuel argument.  `attempt`
is the 1-based attempt counter after the increment at the top of the loop
body.  The second component counts POST requests issued.  The loop always
returns by `attempt = maxRetries`, so with fuel `maxRetries` the fuel-0 arm is
unreachable. -/
def ingestLoop (net : Nat → NetResp) (maxRetries : Nat) :
    Nat → Nat → Except IngestError Unit × Nat
  | _, 0 => (.error .failedToIngest, 0)
  | attempt, fuel + 1 =>
    match net attempt with
    | .ok s =>
      if isSuccessStatus s then (.ok (), 1)
      else if attempt = maxRetries then (.error .failedToIngest, 1)
      else
        let r := ingestLoop net maxRetries (attempt + 1) fuel
        (r.1, r.2 + 1)
    | .errStatus code =>
      if attempt = maxRetries ∨ code = 400 then (.error .ureq, 1)
      else
        let r := ingestLoop net maxRetries (attempt + 1) fuel
        (r.1, r.2 + 1)
    | .errOther =>
      if attempt = maxRetries then (.error .ureq, 1)
      else
        let r := ingestLoop net maxRetries (attempt + 1) fuel
        (r.1, r.2 + 1)

/-- Model of `Salts::ingest`: the `match_id` sanity check short-circuits
before any request; otherwise up to 10 attempts are made. -/
def Salts.ingest (s : Salts) (net : Nat → NetResp) :
    Except IngestError Unit × Nat :=
  if s.match_id > 100000000 then (.error .matchIdTooLarge, 0)
  else ingestLoop net 10 1 10

/-! ## The `HttpListener::listen` loop (src/http_listener.rs lines 20-87)

Each loop iteration is driven by one element of the payload iterator together
with the environment at that iteration: the current instant (for buffer
timestamps and staleness) and the network oracle consumed by a potential
`Salts::ingest` call.  The loop is instrumented with an event trace recording
every `ingest` call (with its outcome) and every dedup-set reset. -/

def MAX_CONCURRENT_STREAMS : Nat := 1000

/-- `Duration::from_secs(30)`, in the same abstract time unit as `now`. -/
def stream_timeout : Nat := 30

/-- One payload together with its environment. -/
structure ListenInput where
  payload : List Nat
  now : Nat
  net : Nat → NetResp

/-- The loop-local state of `listen`. -/
structure ListenState where
  ingested_metadata : Finset Nat
  ingested_replay : Finset Nat
  stream_buffers : List (TcpStreamId × StreamBuffer)

/-- The state at loop entry: empty dedup sets, empty buffer table. -/
def initialListenState : ListenState := ⟨∅, ∅, []⟩

/-- `HashMap::get` on the buffer table (modelled as an association list with
unique keys). -/
def mapLookup (m : List (TcpStreamId × StreamBuffer)) (k : TcpStreamId) :
    Option StreamBuffer :=
  (m.find? (fun e => e.1 == k)).map Prod.snd

/-- Write a value back under a key: replace an existing entry or add one. -/
def mapInsert (m : List (TcpStreamId × StreamBuffer)) (k : TcpStreamId)
    (v : StreamBuffer) : List (TcpStreamId × StreamBuffer) :=
  if (m.find? (fun e => e.1 == k)).isSome then
    m.map (fun e => if e.1 == k then (k, v) else e)
  else m ++ [(k, v)]

/-- Observable events of one `listen` iteration. -/
inductive ListenEv
  | ingestCall (s : Salts) (ok : Bool)
  | metaCleared
  | replayCleared
deriving DecidableEq, Repr

/-- The stale-entry pruning applied when the table grows beyond the cap. -/
def pruneBufs (bs : List (TcpStreamId × StreamBuffer)) (now : Nat) :
    List (TcpStreamId × StreamBuffer) :=
  if bs.length > MAX_CONCURRENT_STREAMS then
    bs.filter (fun e => ¬ e.2.is_stale stream_timeout now)
  else bs

/-- `if salts.metadata_salt.is_some() { ingested_metadata.insert(..) }`. -/
def metaIns (s : Salts) (meta : Finset Nat) : Finset Nat :=
  if s.metadata_salt.isSome then insert s.match_id meta else meta

/-- `if salts.replay_salt.is_some() { ingested_replay.insert(..) }`. -/
def repIns (s : Salts) (replay : Finset Nat) : Finset Nat :=
  if s.replay_salt.isSome then insert s.match_id replay else replay

/-- The dedup-and-ingest phase of one `listen` iteration: given the extraction
result, consult the dedup sets, call `Salts::ingest` when the pair is new,
insert on success and clear a set that grew beyond 1000 entries.  On an
ingest error, `continue` skips both the insertions and the stale-buffer
pruning. -/
def listenIngestPhase (meta replay : Finset Nat) (inp : ListenInput)
    (salts : Option Salts) (bufs : List (TcpStreamId × StreamBuffer)) :
    ListenState × List ListenEv :=
  match salts with
  | none => (⟨meta, replay, pruneBufs bufs inp.now⟩, [])
  | some s =>
    let is_new_metadata := s.metadata_salt.isSome ∧ s.match_id ∉ meta
    let is_new_replay := s.replay_salt.isSome ∧ s.match_id ∉ replay
    if is_new_metadata ∨ is_new_replay then
      match (Salts.ingest s inp.net).1 with
      | .error _ => (⟨meta, replay, bufs⟩, [.ingestCall s false])
      | .ok _ =>
        let meta1 := metaIns s meta
        let metaClr := s.metadata_salt.isSome ∧ meta1.card > 1000
        let meta2 := if metaClr then ∅ else meta1
        let rep1 := repIns s replay
        let repClr := s.replay_salt.isSome ∧ rep1.card > 1000
        let rep2 := if repClr then ∅ else rep1
        (⟨meta2, rep2, pruneBufs bufs inp.now⟩,
          .ingestCall s true ::
            ((if metaClr then [ListenEv.metaCleared] else []) ++
             (if repClr then [ListenEv.replayCleared] else [])))
    else (⟨meta, replay, pruneBufs bufs inp.now⟩, [])

/-- One iteration of the `for payload in self.payloads()?` loop. -/
def listenStep (st : ListenState) (inp : ListenInput) :
    ListenState × List ListenEv :=
  match TcpStreamId.from_packet inp.payload with
  | none => (st, [])
  | some stream_id =>
    let buffer := match mapLookup st.stream_buffers stream_id with
      | some b => b
      | none => StreamBuffer.new inp.now
    let buffer := buffer.append inp.payload inp.now
    let salts := extract_salts buffer.data
    let buffer := if salts.isSome then buffer.clear inp.now else buffer
    let bufs := mapInsert st.stream_buffers stream_id buffer
    listenIngestPhase st.ingested_metadata st.ingested_replay inp salts bufs

/-- Run the loop over a list of inputs, collecting the final state and the
concatenated event trace. -/
def runListen : ListenState → List ListenInput → ListenState × List ListenEv
  | st, [] => (st, [])
  | st, inp :: rest =>
    let s1 := listenStep st inp
    let s2 := runListen s1.1 rest
    (s2.1, s1.2 ++ s2.2)

/-- The event trace of a whole `listen` run from the initial state. -/
def listenTrace (inputs : List ListenInput) : List ListenEv :=
  (runListen initialListenState inputs).2

/-! ## Concrete sample data used by witnesses -/

/-- A raw IPv4/TCP packet (IHL 5, protocol TCP) whose payload carries a full
replay-metadata request with an absolute-URI target. -/
def samplePacketBytes : List Nat :=
  [0x45, 0, 0, 0, 0, 0, 0, 0, 0, 6, 0, 0, 1, 2, 3, 4, 5, 6, 7, 8] ++
    strBytes
      "GET http://replay404.valve.net/1422450/37959196_937530290.meta.bz2 HTTP/1.1\r\n\r\n"

/-- A network oracle that accepts every POST. -/
def sampleNet : Nat → NetResp := fun _ => .ok 200

/-- The sample packet arriving at instant 0 against an accepting collector. -/
def sampleInput : ListenInput := ⟨samplePacketBytes, 0, sampleNet⟩

/-- The record encoded in the sample packet. -/
def sampleSalts : Salts := ⟨37959196, 404, some 937530290, none⟩

/-! ## Helper lemmas about the string models -/

theorem findSub_of_isPrefixOf {α : Type} [DecidableEq α] {hay pat : List α}
    (h : pat.isPrefixOf hay) : findSub hay pat = some 0 := by
  cases hay <;> simp [findSub, h]

theorem findSub_append_of_head_notMem {α : Type} [DecidableEq α] {p : α}
    {pt : List α} (A B : List α) (hA : p ∉ A) :
    findSub (A ++ B) (p :: pt) = (findSub B (p :: pt)).map (· + A.length) := by
  induction A with
  | nil =>
    simp only [List.nil_append, List.length_nil]
    cases findSub B (p :: pt) <;> simp
  | cons a A ih =>
    have hpa : ¬ (p :: pt).isPrefixOf (a :: (A ++ B)) = true := by
      intro hc
      rw [List.isPrefixOf] at hc
      have : p = a := by
        by_contra hne
        simp [hne] at hc
      exact hA (by simp [this])
    rw [List.cons_append, findSub, if_neg hpa,
      ih (fun hm => hA (List.mem_cons_of_mem _ hm))]
    cases findSub B (p :: pt) with
    | none => simp
    | some v => simp; omega

theorem findSub_isSome_iff_infix {α : Type} [DecidableEq α] (hay pat : List α) :
    (findSub hay pat).isSome = true ↔ pat <:+: hay := by
  induction hay with
  | nil =>
    rw [findSub]
    constructor
    · intro h
      split at h
      · next hp => exact (List.isPrefixOf_iff_prefix.mp hp).isInfix
      · simp at h
    · intro h
      rw [List.infix_nil] at h
      subst h
      rw [if_pos (by rfl)]
      rfl
  | cons a t ih =>
    rw [findSub]
    constructor
    · intro h
      split at h
      · next hp => exact (List.isPrefixOf_iff_prefix.mp hp).isInfix
      · next hp =>
        simp only [Option.isSome_map'] at h
        exact List.infix_cons (ih.mp h)
    · intro h
      split
      · rfl
      · next hp =>
        simp only [Option.isSome_map']
        rcases List.infix_cons_iff.mp h with h1 | h1
        · exact absurd (List.isPrefixOf_iff_prefix.mpr h1) hp
        · exact ih.mpr h1

theorem splitOnceChar_not_mem {l : List Char} {c : Char} (h : c ∉ l) :
    splitOnceChar l c = none := by
  induction l with
  | nil => rfl
  | cons x xs ih =>
    have hx : ¬ x = c := fun he => h (by simp [he])
    simp [splitOnceChar, hx, ih (fun hm => h (List.mem_cons_of_mem _ hm))]

theorem splitOnceChar_append {A B : List Char} {c : Char} (h : c ∉ A) :
    splitOnceChar (A ++ c :: B) c = some (A, B) := by
  induction A with
  | nil => simp [splitOnceChar]
  | cons a A ih =>
    have ha : ¬ a = c := fun he => h (by simp [he])
    simp [splitOnceChar, ha, ih (fun hm => h (List.mem_cons_of_mem _ hm))]

theorem rsplitOnceChar_append {A B : List Char} {c : Char} (h : c ∉ B) :
    rsplitOnceChar (A ++ c :: B) c = some (A, B) := by
  have hrev : (A ++ c :: B).reverse = B.reverse ++ c :: A.reverse := by
    simp
  rw [rsplitOnceChar, hrev,
    splitOnceChar_append (fun hm => h (List.mem_reverse.mp hm))]
  simp

theorem stripPre_append (pat X : List Char) : stripPre pat (pat ++ X) = some X := by
  rw [stripPre, if_pos (List.isPrefixOf_iff_prefix.mpr (List.prefix_append _ _)),
    List.drop_left]

theorem stripSuf_append (pat X : List Char) : stripSuf pat (X ++ pat) = some X := by
  rw [stripSuf, if_pos (List.isSuffixOf_iff_suffix.mpr (List.suffix_append _ _))]
  congr 1
  rw [List.length_append, Nat.add_sub_cancel, List.take_left]

theorem endsWith_append (pat X : List Char) : endsWith pat (X ++ pat) = true :=
  List.isSuffixOf_iff_suffix.mpr (List.suffix_append _ _)

theorem meta_not_suffix_of_dem (X : List Char) :
    endsWith metaSuffix (X ++ demSuffix) = false := by
  rw [endsWith]
  by_contra hc
  rw [Bool.not_eq_false, List.isSuffixOf_iff_suffix] at hc
  have hd : demSuffix <:+ X ++ demSuffix := List.suffix_append _ _
  have hsub : demSuffix <:+ metaSuffix :=
    List.suffix_of_suffix_length_le hd hc (by decide)
  exact absurd hsub (by decide)

theorem parseUNat_digits {ds : List Char} (bound : Nat) (h1 : ds ≠ [])
    (h2 : ds.all Char.isDigit) (h3 : digitsVal ds ≤ bound) :
    parseUNat bound ds = some (digitsVal ds) := by
  obtain ⟨c, cs, rfl⟩ : ∃ c cs, ds = c :: cs := by
    cases ds with
    | nil => exact absurd rfl h1
    | cons c cs => exact ⟨c, cs, rfl⟩
  have hc : c.isDigit = true := by
    have := List.all_eq_true.mp h2 c (by simp)
    simpa using this
  have hcp : ¬ (c :: cs).head? = some '+' := by
    intro he
    rw [List.head?_cons, Option.some_inj] at he
    rw [he] at hc
    exact absurd hc (by decide)
  rw [parseUNat, if_neg hcp, parseUNatGo, if_neg (by simp), if_pos h2, if_pos h3]

theorem digits_not_mem {ds : List Char} (h : ds.all Char.isDigit) {c : Char}
    (hc : c.isDigit = false) : c ∉ ds := by
  intro hm
  have := List.all_eq_true.mp h c hm
  simp [hc] at this

theorem findSub_append_shiftPat {α : Type} [DecidableEq α]
    (pat A B : List α) (p : α) (hp : pat.head? = some p) (hA : p ∉ A) :
    findSub (A ++ B) pat = (findSub B pat).map (· + A.length) := by
  obtain ⟨pt, rfl⟩ : ∃ pt, pat = p :: pt := by
    cases pat with
    | nil => simp at hp
    | cons q qt =>
      rw [List.head?_cons, Option.some_inj] at hp
      exact ⟨qt, by rw [hp]⟩
  exact findSub_append_of_head_notMem A B hA

/-- Parsing the URL template with a `.meta.bz2` suffix: the general shape
`http://replay<cs>.valve.net/<path>/<ms>_<ss>.meta.bz2`. -/
theorem from_url_template_meta (cs path ms ss : List Char)
    (hcs1 : cs ≠ []) (hcs2 : cs.all Char.isDigit) (hcs3 : digitsVal cs ≤ U32MAX)
    (hms1 : ms ≠ []) (hms2 : ms.all Char.isDigit) (hms3 : digitsVal ms ≤ U64MAX)
    (hpath : '?' ∉ path) (hssq : '?' ∉ ss) (hsss : '/' ∉ ss) :
    Salts.from_url (replayPre ++ cs ++ valvePat ++
        (path ++ '/' :: (ms ++ '_' :: (ss ++ metaSuffix)))) =
      some ⟨digitsVal ms, digitsVal cs, parseUNat U32MAX ss, none⟩ := by
  have hq : '?' ∉ replayPre ++ cs ++ valvePat ++
      (path ++ '/' :: (ms ++ '_' :: (ss ++ metaSuffix))) := by
    intro hm
    have pieces : '?' ∈ replayPre ∨ '?' ∈ cs ∨ '?' ∈ valvePat ∨ '?' ∈ path ∨
        '?' = '/' ∨ '?' ∈ ms ∨ '?' = '_' ∨ '?' ∈ ss ∨ '?' ∈ metaSuffix := by
      simpa [List.mem_append, List.mem_cons, or_assoc] using hm
    rcases pieces with h | h | h | h | h | h | h | h | h
    · exact absurd h (by decide)
    · exact absurd h (digits_not_mem hcs2 (by decide))
    · exact absurd h (by decide)
    · exact hpath h
    · exact absurd h (by decide)
    · exact absurd h (digits_not_mem hms2 (by decide))
    · exact absurd h (by decide)
    · exact hssq h
    · exact absurd h (by decide)
  have hslash : '/' ∉ (ms ++ '_' :: ss) ++ metaSuffix := by
    intro hm
    have pieces : '/' ∈ ms ∨ '/' = '_' ∨ '/' ∈ ss ∨ '/' ∈ metaSuffix := by
      simpa [List.mem_append, List.mem_cons, or_assoc] using hm
    rcases pieces with h | h | h | h
    · exact absurd h (digits_not_mem hms2 (by decide))
    · exact absurd h (by decide)
    · exact hsss h
    · exact absurd h (by decide)
  rw [Salts.from_url]
  simp only [splitOnceChar_not_mem hq, Option.map_none', Option.getD_none]
  rw [List.append_assoc, List.append_assoc, stripPre_append]
  simp only [Option.some_bind]
  rw [splitOnceSub,
    findSub_append_shiftPat valvePat cs _ '.' rfl
      (digits_not_mem hcs2 (by decide)),
    findSub_of_isPrefixOf (List.isPrefixOf_iff_prefix.mpr (List.prefix_append _ _))]
  simp only [Option.map_some', Option.some_bind, Nat.zero_add]
  rw [List.take_left,
    show cs.length + valvePat.length = (cs ++ valvePat).length from
      (List.length_append _ _).symm,
    ← List.append_assoc, List.drop_left]
  have hname : path ++ '/' :: (ms ++ '_' :: (ss ++ metaSuffix)) =
      path ++ '/' :: ((ms ++ '_' :: ss) ++ metaSuffix) := by simp
  rw [hname, rsplitOnceChar_append hslash]
  simp only [Option.map_some', Option.some_bind]
  rw [endsWith_append, if_pos rfl, stripSuf_append]
  simp only [Option.some_bind]
  rw [splitOnceChar_append (digits_not_mem hms2 (by decide))]
  simp only [Option.some_bind]
  rw [parseUNat_digits _ hcs1 hcs2 hcs3]
  simp only [Option.some_bind]
  rw [parseUNat_digits _ hms1 hms2 hms3]
  simp only [Option.some_bind]

/-- Parsing the URL template with a `.dem.bz2` suffix. -/
theorem from_url_template_dem (cs path ms ss : List Char)
    (hcs1 : cs ≠ []) (hcs2 : cs.all Char.isDigit) (hcs3 : digitsVal cs ≤ U32MAX)
    (hms1 : ms ≠ []) (hms2 : ms.all Char.isDigit) (hms3 : digitsVal ms ≤ U64MAX)
    (hpath : '?' ∉ path) (hssq : '?' ∉ ss) (hsss : '/' ∉ ss) :
    Salts.from_url (replayPre ++ cs ++ valvePat ++
        (path ++ '/' :: (ms ++ '_' :: (ss ++ demSuffix)))) =
      some ⟨digitsVal ms, digitsVal cs, none, parseUNat U32MAX ss⟩ := by
  have hq : '?' ∉ replayPre ++ cs ++ valvePat ++
      (path ++ '/' :: (ms ++ '_' :: (ss ++ demSuffix))) := by
    intro hm
    have pieces : '?' ∈ replayPre ∨ '?' ∈ cs ∨ '?' ∈ valvePat ∨ '?' ∈ path ∨
        '?' = '/' ∨ '?' ∈ ms ∨ '?' = '_' ∨ '?' ∈ ss ∨ '?' ∈ demSuffix := by
      simpa [List.mem_append, List.mem_cons, or_assoc] using hm
    rcases pieces with h | h | h | h | h | h | h | h | h
    · exact absurd h (by decide)
    · exact absurd h (digits_not_mem hcs2 (by decide))
    · exact absurd h (by decide)
    · exact hpath h
    · exact absurd h (by decide)
    · exact absurd h (digits_not_mem hms2 (by decide))
    · exact absurd h (by decide)
    · exact hssq h
    · exact absurd h (by decide)
  have hslash : '/' ∉ (ms ++ '_' :: ss) ++ demSuffix := by
    intro hm
    have pieces : '/' ∈ ms ∨ '/' = '_' ∨ '/' ∈ ss ∨ '/' ∈ demSuffix := by
      simpa [List.mem_append, List.mem_cons, or_assoc] using hm
    rcases pieces with h | h | h | h
    · exact absurd h (digits_not_mem hms2 (by decide))
    · exact absurd h (by decide)
    · exact hsss h
    · exact absurd h (by decide)
  rw [Salts.from_url]
  simp only [splitOnceChar_not_mem hq, Option.map_none', Option.getD_none]
  rw [List.append_assoc, List.append_assoc, stripPre_append]
  simp only [Option.some_bind]
  rw [splitOnceSub,
    findSub_append_shiftPat valvePat cs _ '.' rfl
      (digits_not_mem hcs2 (by decide)),
    findSub_of_isPrefixOf (List.isPrefixOf_iff_prefix.mpr (List.prefix_append _ _))]
  simp only [Option.map_some', Option.some_bind, Nat.zero_add]
  rw [List.take_left,
    show cs.length + valvePat.length = (cs ++ valvePat).length from
      (List.length_append _ _).symm,
    ← List.append_assoc, List.drop_left]
  have hname : path ++ '/' :: (ms ++ '_' :: (ss ++ demSuffix)) =
      path ++ '/' :: ((ms ++ '_' :: ss) ++ demSuffix) := by simp
  rw [hname, rsplitOnceChar_append hslash]
  simp only [Option.map_some', Option.some_bind]
  rw [meta_not_suffix_of_dem, if_neg (by decide), endsWith_append, if_pos rfl,
    stripSuf_append]
  simp only [Option.some_bind]
  rw [splitOnceChar_append (digits_not_mem hms2 (by decide))]
  simp only [Option.some_bind]
  rw [parseUNat_digits _ hcs1 hcs2 hcs3]
  simp only [Option.some_bind]
  rw [parseUNat_digits _ hms1 hms2 hms3]
  simp only [Option.some_bind]

theorem from_url_salts_disjoint (url : List Char) (s : Salts)
    (h : Salts.from_url url = some s) :
    s.metadata_salt = none ∨ s.replay_salt = none := by
  rw [Salts.from_url] at h
  simp only [Option.bind_eq_some] at h
  obtain ⟨stripped, -, cr, -, nm, -, h⟩ := h
  split at h
  · simp only [Option.bind_eq_some] at h
    obtain ⟨n2, -, msp, -, cid, -, mid, -, h⟩ := h
    rw [Option.some_inj] at h
    subst h
    right
    rfl
  · split at h
    · simp only [Option.bind_eq_some] at h
      obtain ⟨n2, -, msp, -, cid, -, mid, -, h⟩ := h
      rw [Option.some_inj] at h
      subst h
      left
      rfl
    · exact absurd h (by simp)

theorem getD_drop (l : List Nat) (n i : Nat) :
    (l.drop n).getD i 0 = l.getD (n + i) 0 := by
  simp [List.getD_eq_getElem?_getD, List.getElem?_drop]

/-! ## Claim theorems -/

/-- C2: `Salts::from_url` on
`http://replay404.valve.net/1422450/37959196_937530290.meta.bz2` yields
cluster_id 404, match_id 37959196, metadata_salt 937530290, replay_salt None;
appending `?v=2` yields the identical record; and on every URL matching the
template, a `.meta.bz2` suffix selects the metadata salt leaving the replay
salt unset while `.dem.bz2` does the reverse. -/
theorem C2_from_url_extraction :
    (Salts.from_url
        "http://replay404.valve.net/1422450/37959196_937530290.meta.bz2".data =
      some ⟨37959196, 404, some 937530290, none⟩) ∧
    (Salts.from_url
        "http://replay404.valve.net/1422450/37959196_937530290.meta.bz2?v=2".data =
      some ⟨37959196, 404, some 937530290, none⟩) ∧
    (∀ cs path ms ss : List Char, cs ≠ [] → cs.all Char.isDigit = true →
      digitsVal cs ≤ U32MAX → ms ≠ [] → ms.all Char.isDigit = true →
      digitsVal ms ≤ U64MAX → '?' ∉ path → '?' ∉ ss → '/' ∉ ss →
      Salts.from_url (replayPre ++ cs ++ valvePat ++
          (path ++ '/' :: (ms ++ '_' :: (ss ++ metaSuffix)))) =
        some ⟨digitsVal ms, digitsVal cs, parseUNat U32MAX ss, none⟩) ∧
    (∀ cs path ms ss : List Char, cs ≠ [] → cs.all Char.isDigit = true →
      digitsVal cs ≤ U32MAX → ms ≠ [] → ms.all Char.isDigit = true →
      digitsVal ms ≤ U64MAX → '?' ∉ path → '?' ∉ ss → '/' ∉ ss →
      Salts.from_url (replayPre ++ cs ++ valvePat ++
          (path ++ '/' :: (ms ++ '_' :: (ss ++ demSuffix)))) =
        some ⟨digitsVal ms, digitsVal cs, none, parseUNat U32MAX ss⟩) := by
  refine ⟨by decide, by decide, ?_, ?_⟩
  · intro cs path ms ss h1 h2 h3 h4 h5 h6 h7 h8 h9
    exact from_url_template_meta cs path ms ss h1 h2 h3 h4 h5 h6 h7 h8 h9
  · intro cs path ms ss h1 h2 h3 h4 h5 h6 h7 h8 h9
    exact from_url_template_dem cs path ms ss h1 h2 h3 h4 h5 h6 h7 h8 h9

theorem C2_from_url_extraction_witness :
    Salts.from_url (replayPre ++ "9".data ++ valvePat ++
        ("x".data ++ '/' :: ("12".data ++ '_' :: ("34".data ++ demSuffix)))) =
      some ⟨digitsVal "12".data, digitsVal "9".data, none,
        parseUNat U32MAX "34".data⟩ :=
  C2_from_url_extraction.2.2.2 "9".data "x".data "12".data "34".data
    (by decide) (by decide) (by decide) (by decide) (by decide) (by decide)
    (by decide) (by decide) (by decide)

/-- C3 counterexample: a salt that overflows `u32` does NOT make
`Salts::from_url` return `None` — the record is returned with both salt
fields `None`, so neither "any failure yields no result" nor "exactly one
of metadata_salt/replay_salt is populated" holds as stated. -/
theorem C3_counterexample :
    Salts.from_url
      "http://replay404.valve.net/1422450/37959196_99999999999.meta.bz2".data =
      some ⟨37959196, 404, none, none⟩ := by decide

/-- C3 (amended): cluster-id and match-id parse failures abort the parse, but
a salt parse failure only leaves the selected salt field unset; consequently
every record `Salts::from_url` returns has AT MOST one salt populated (zero
when the salt string fails to parse as `u32`). -/
theorem C3_amended_at_most_one_salt (url : List Char) (s : Salts)
    (h : Salts.from_url url = some s) :
    s.metadata_salt = none ∨ s.replay_salt = none :=
  from_url_salts_disjoint url s h

theorem C3_amended_at_most_one_salt_witness :
    (⟨37959196, 404, some 937530290, none⟩ : Salts).metadata_salt = none ∨
      (⟨37959196, 404, some 937530290, none⟩ : Salts).replay_salt = none :=
  C3_amended_at_most_one_salt
    "http://replay404.valve.net/1422450/37959196_937530290.meta.bz2".data
    ⟨37959196, 404, some 937530290, none⟩ (by decide)

/-- C4: for every record whose match_id is 100,000,001 or greater,
`Salts::ingest` returns `MatchIdTooLarge` and issues zero POST requests,
whatever the network would have answered. -/
theorem C4_ingest_rejects_large_match_id (s : Salts) (net : Nat → NetResp)
    (h : 100000001 ≤ s.match_id) :
    Salts.ingest s net = (.error .matchIdTooLarge, 0) := by
  rw [Salts.ingest, if_pos (by omega)]

theorem C4_ingest_rejects_large_match_id_witness :
    Salts.ingest ⟨100000001, 1, some 5, none⟩ (fun _ => .ok 200) =
      (.error .matchIdTooLarge, 0) :=
  C4_ingest_rejects_large_match_id ⟨100000001, 1, some 5, none⟩
    (fun _ => .ok 200) (by decide)

theorem bufOps_foldl_le (ops : List BufOp) :
    ∀ b : StreamBuffer, b.data.length ≤ MAX_STREAM_BUFFER_SIZE →
      (ops.foldl BufOp.apply b).data.length ≤ MAX_STREAM_BUFFER_SIZE := by
  induction ops with
  | nil =>
    intro b hb
    simpa using hb
  | cons op rest ih =>
    intro b hb
    rw [List.foldl_cons]
    apply ih
    cases op with
    | append payload now =>
      show (b.append payload now).data.length ≤ MAX_STREAM_BUFFER_SIZE
      rw [StreamBuffer.append]
      split
      · next hc => simpa using hc
      · exact hb
    | clear now => simp [BufOp.apply, StreamBuffer.clear]

/-- C8: over any sequence of append/clear operations from a fresh buffer the
accumulated data never exceeds 16384 bytes, and an append whose combined size
would exceed the cap is dropped entirely, leaving the buffer unchanged. -/
theorem C8_buffer_cap_invariant (t0 : Nat) (ops : List BufOp)
    (b : StreamBuffer) (payload : List Nat) (now : Nat)
    (hover : MAX_STREAM_BUFFER_SIZE < b.data.length + payload.length) :
    (runBufOps t0 ops).data.length ≤ MAX_STREAM_BUFFER_SIZE ∧
      b.append payload now = b := by
  constructor
  · exact bufOps_foldl_le ops _ (by simp [StreamBuffer.new])
  · rw [StreamBuffer.append, if_neg (by omega)]

theorem C8_buffer_cap_invariant_witness :
    (runBufOps 0 [.append (List.replicate 20000 7) 1]).data.length ≤
        MAX_STREAM_BUFFER_SIZE ∧
      StreamBuffer.append ⟨List.replicate 16000 0, 0⟩ (List.replicate 400 0) 5 =
        ⟨List.replicate 16000 0, 0⟩ :=
  C8_buffer_cap_invariant 0 [.append (List.replicate 20000 7) 1]
    ⟨List.replicate 16000 0, 0⟩ (List.replicate 400 0) 5
    (by simp only [List.length_replicate, MAX_STREAM_BUFFER_SIZE]; omega)

/-- C9: splitting a payload into two appends on a fresh buffer (within the
cap) and extracting salts from the buffered bytes gives the same result as
extracting from the one-shot concatenation. -/
theorem C9_two_appends_extract_equiv (a b : List Nat) (t0 t1 t2 : Nat)
    (h : a.length + b.length ≤ MAX_STREAM_BUFFER_SIZE) :
    extract_salts (((StreamBuffer.new t0).append a t1).append b t2).data =
      extract_salts (a ++ b) := by
  have h1 : (StreamBuffer.new t0).append a t1 = ⟨a, t1⟩ := by
    rw [StreamBuffer.new, StreamBuffer.append, if_pos (by simp; omega)]
    simp
  rw [h1, StreamBuffer.append, if_pos (by simpa using h)]

theorem C9_two_appends_extract_equiv_witness :
    extract_salts (((StreamBuffer.new 0).append
        (strBytes "GET http://replay404.valve.net/1422450/37959196_937530290.meta.bz2 HT") 1).append
        (strBytes "TP/1.1\r\n\r\n") 2).data =
      extract_salts (strBytes "GET http://replay404.valve.net/1422450/37959196_937530290.meta.bz2 HT" ++
        strBytes "TP/1.1\r\n\r\n") :=
  C9_two_appends_extract_equiv _ _ 0 1 2 (by decide)

/-- C10 counterexample: a 20-byte IPv4 packet with protocol TCP and IHL
nibble 4 (declared header length 16 < 20) is REJECTED by
`from_ipv4_packet` (the `ihl + 20` length check fails), so the claim's
"returns Some for every such slice of length ≥ 20" is false. -/
theorem C10_counterexample :
    TcpStreamId.from_ipv4_packet
        [0x44, 0, 0, 0, 0, 0, 0, 0, 0, 6, 0, 0, 0, 0, 0, 0, 0, 0, 0, 0] =
        none ∧
      ([0x44, 0, 0, 0, 0, 0, 0, 0, 0, 6, 0, 0, 0, 0, 0, 0, 0, 0, 0, 0] :
        List Nat).length = 20 ∧
      ([0x44, 0, 0, 0, 0, 0, 0, 0, 0, 6, 0, 0, 0, 0, 0, 0, 0, 0, 0, 0] :
        List Nat).getD 9 0 = 6 ∧
      ([0x44, 0, 0, 0, 0, 0, 0, 0, 0, 6, 0, 0, 0, 0, 0, 0, 0, 0, 0, 0] :
        List Nat).getD 0 0 % 16 < 5 := by decide

/-- C10 (amended): `from_ipv4_packet` performs no `IHL ≥ 5` validation: for a
packet with protocol 6 and IHL nibble < 5 that also passes the (IHL-derived)
`len ≥ 4*IHL + 20` length check, it returns Some, with the ports read at
offset `4*IHL` — inside the IPv4 header itself (for IHL = 0, from the
packet's first four bytes). -/
theorem C10_amended_ihl_not_validated (packet : List Nat)
    (h20 : 20 ≤ packet.length) (hp : packet.getD 9 0 = IPPROTO_TCP)
    (_hihl : packet.getD 0 0 % 16 < 5)
    (hlen : packet.getD 0 0 % 16 * 4 + 20 ≤ packet.length) :
    TcpStreamId.from_ipv4_packet packet = some
      ⟨IpAddr.v4 (packet.getD 12 0) (packet.getD 13 0) (packet.getD 14 0)
          (packet.getD 15 0),
        IpAddr.v4 (packet.getD 16 0) (packet.getD 17 0) (packet.getD 18 0)
          (packet.getD 19 0),
        u16be (packet.getD (packet.getD 0 0 % 16 * 4) 0)
          (packet.getD (packet.getD 0 0 % 16 * 4 + 1) 0),
        u16be (packet.getD (packet.getD 0 0 % 16 * 4 + 2) 0)
          (packet.getD (packet.getD 0 0 % 16 * 4 + 3) 0),
        IPPROTO_TCP⟩ := by
  rw [TcpStreamId.from_ipv4_packet]
  rw [if_neg (by omega), if_neg (not_not_intro hp), if_neg (by omega),
    if_neg (by rw [List.length_drop]; omega)]
  rw [hp]
  simp only [getD_drop]
  rfl

theorem C10_amended_ihl_not_validated_witness :
    TcpStreamId.from_ipv4_packet
        [0x40, 9, 9, 9, 0, 0, 0, 0, 0, 6, 0, 0, 10, 0, 0, 1, 10, 0, 0, 2] =
      some ⟨IpAddr.v4 10 0 0 1, IpAddr.v4 10 0 0 2, u16be 0x40 9,
        u16be 9 9, IPPROTO_TCP⟩ := by
  have h := C10_amended_ihl_not_validated
    [0x40, 9, 9, 9, 0, 0, 0, 0, 0, 6, 0, 0, 10, 0, 0, 1, 10, 0, 0, 2]
    (by decide) (by decide) (by decide) (by decide)
  simpa using h


/-- C6 counterexample: the first `GET ` occurrence of this input begins at
index 4096 — beyond the claimed 4096-byte scan cap — yet `find_http_in_packet`
still yields a result: the source scans the whole buffer with no cap. -/
theorem C6_counterexample :
    findSub (List.replicate 4096 97 ++
        strBytes "GET http://replay404.valve.net/x.meta.bz2 HTTP/1.1\r\n\r\n")
        GETbytes = some 4096 ∧
      find_http_in_packet (List.replicate 4096 97 ++
        strBytes "GET http://replay404.valve.net/x.meta.bz2 HTTP/1.1\r\n\r\n") ≠
        none := by
  have hno : (71 : Nat) ∉ List.replicate 4096 (97 : Nat) := by
    intro hm
    have := (List.mem_replicate.mp hm).2
    omega
  have hfind : findSub (List.replicate 4096 (97 : Nat) ++
      strBytes "GET http://replay404.valve.net/x.meta.bz2 HTTP/1.1\r\n\r\n")
      GETbytes = some 4096 := by
    rw [findSub_append_shiftPat GETbytes _ _ 71 rfl hno,
      findSub_of_isPrefixOf (by decide)]
    simp only [Option.map_some', List.length_replicate, Nat.zero_add]
  refine ⟨hfind, ?_⟩
  rw [find_http_in_packet, hfind]
  simp only [Option.map_some', ne_eq, reduceCtorEq, not_false_eq_true]

/-- C6 (amended): `find_http_in_packet` applies no scan cap at all: it
considers a `GET ` occurrence at any position, yielding a result exactly when
the literal bytes `GET ` occur anywhere in the buffer. -/
theorem C6_amended_no_scan_cap (data : List Nat) :
    (find_http_in_packet data).isSome = true ↔ GETbytes <:+: data := by
  rw [find_http_in_packet, Option.isSome_map']
  exact findSub_isSome_iff_infix data GETbytes


theorem splitIncNLGo_append (A : List Char) (rest acc : List Char)
    (hA : '\n' ∉ A) :
    splitIncNLGo (A ++ '\n' :: rest) acc =
      (acc.reverse ++ A ++ ['\n']) :: splitIncNLGo rest [] := by
  induction A generalizing acc with
  | nil => simp [splitIncNLGo]
  | cons a A ih =>
    have ha : ¬ a = '\n' := fun he => hA (by simp [he])
    rw [List.cons_append, splitIncNLGo, if_neg ha,
      ih _ (fun hm => hA (List.mem_cons_of_mem _ hm))]
    simp

theorem stripLineEnd_crlf (X : List Char) :
    stripLineEnd (X ++ ['\r', '\n']) = X := by
  rw [stripLineEnd]
  simp

theorem rustLines_cons (A rest : List Char) (hA : '\n' ∉ A) :
    rustLines ((A ++ ['\r']) ++ '\n' :: rest) =
      A :: rustLines rest := by
  rw [rustLines, splitIncNL,
    splitIncNLGo_append _ _ _ (by
      intro hm
      rcases List.mem_append.mp hm with h | h
      · exact hA h
      · simp at h)]
  rw [List.map_cons]
  congr 1
  rw [List.reverse_nil, List.nil_append, List.append_assoc]
  exact stripLineEnd_crlf A

theorem rustLines_nil : rustLines [] = [] := rfl

theorem unfoldGo_nil (current : List Char) :
    unfoldGo [] current =
      if current.isEmpty then [] else current ++ ['\r', '\n'] := rfl

theorem unfoldGo_cons (line : List Char) (rest : List (List Char))
    (current : List Char) :
    unfoldGo (line :: rest) current =
      if isContLine line then unfoldGo rest (current ++ ' ' :: trimL line)
      else if current.isEmpty then unfoldGo rest line
      else (current ++ ['\r', '\n']) ++ unfoldGo rest line := rfl

/-- One obsolete-folding step of `unfold_http_headers`: a request line, a
header line, one continuation line and the terminating blank line unfold to
the header joined with its continuation by exactly one space. -/
theorem unfold_http_headers_fold (req h c : List Char)
    (hreq : '\n' ∉ req) (hh1 : h ≠ []) (hh2 : isContLine h = false)
    (hhn : '\n' ∉ h) (hc1 : isContLine c = true) (hcn : '\n' ∉ c) :
    unfold_http_headers ((req ++ ['\r']) ++ '\n' ::
        ((h ++ ['\r']) ++ '\n' :: ((c ++ ['\r']) ++ '\n' :: ['\r', '\n']))) =
      (req ++ ['\r', '\n']) ++ ((h ++ ' ' :: trimL c) ++ ['\r', '\n']) := by
  have hlines : rustLines ((req ++ ['\r']) ++ '\n' ::
      ((h ++ ['\r']) ++ '\n' :: ((c ++ ['\r']) ++ '\n' :: ['\r', '\n']))) =
      [req, h, c, []] := by
    rw [rustLines_cons _ _ hreq, rustLines_cons _ _ hhn, rustLines_cons _ _ hcn,
      show ('\r' :: ['\n'] : List Char) = ([] ++ ['\r']) ++ '\n' :: [] from rfl,
      rustLines_cons _ _ (by simp), rustLines_nil]
  rw [unfold_http_headers, hlines]
  show (req ++ ['\r', '\n']) ++ unfoldGo [h, c, []] [] =
    (req ++ ['\r', '\n']) ++ ((h ++ ' ' :: trimL c) ++ ['\r', '\n'])
  rw [unfoldGo_cons, if_neg (by simp [hh2]), if_pos List.isEmpty_nil]
  rw [unfoldGo_cons, if_pos hc1]
  rw [unfoldGo_cons, if_neg (by simp [isContLine]),
    if_neg (by simp [hh1]), unfoldGo_nil]
  simp

/-- C7: `unfold_http_headers` joins a continuation line (leading space or
tab) to the previous header line with exactly one space (the continuation is
trimmed); in particular `parse_http_request` on
`GET /path HTTP/1.1\r\nHost: replay404\r\n .valve.net\r\n\r\n` resolves the
host to `replay404 .valve.net` and returns
`http://replay404 .valve.net/path`. -/
theorem C7_header_folding :
    (∀ req h c : List Char, '\n' ∉ req → h ≠ [] → isContLine h = false →
      '\n' ∉ h → isContLine c = true → '\n' ∉ c →
      unfold_http_headers ((req ++ ['\r']) ++ '\n' ::
          ((h ++ ['\r']) ++ '\n' :: ((c ++ ['\r']) ++ '\n' :: ['\r', '\n']))) =
        (req ++ ['\r', '\n']) ++ ((h ++ ' ' :: trimL c) ++ ['\r', '\n'])) ∧
    parse_http_request
        "GET /path HTTP/1.1\r\nHost: replay404\r\n .valve.net\r\n\r\n".data =
      some "http://replay404 .valve.net/path".data := by
  refine ⟨?_, by decide⟩
  intro req h c h1 h2 h3 h4 h5 h6
  exact unfold_http_headers_fold req h c h1 h2 h3 h4 h5 h6

theorem C7_header_folding_witness :
    unfold_http_headers (("GET / HTTP/1.1".data ++ ['\r']) ++ '\n' ::
        (("Host: a".data ++ ['\r']) ++ '\n' ::
          ((" b".data ++ ['\r']) ++ '\n' :: ['\r', '\n']))) =
      ("GET / HTTP/1.1".data ++ ['\r', '\n']) ++
        (("Host: a".data ++ ' ' :: trimL " b".data) ++ ['\r', '\n']) :=
  C7_header_folding.1 "GET / HTTP/1.1".data "Host: a".data " b".data
    (by decide) (by decide) (by decide) (by decide) (by decide) (by decide)


theorem dropWhile_all_false {α : Type} (p : α → Bool) (l : List α)
    (h : ∀ c ∈ l, p c = false) : l.dropWhile p = l := by
  cases l with
  | nil => rfl
  | cons x xs => rw [List.dropWhile_cons_of_neg (by simp [h x (by simp)])]

theorem dropWhile_idem {α : Type} (p : α → Bool) (l : List α) :
    (l.dropWhile p).dropWhile p = l.dropWhile p := by
  induction l with
  | nil => rfl
  | cons x xs ih =>
    by_cases hx : p x = true
    · rw [List.dropWhile_cons_of_pos hx, ih]
    · rw [List.dropWhile_cons_of_neg hx, List.dropWhile_cons_of_neg hx]

theorem trimL_all_not_ws (l : List Char) (h : ∀ c ∈ l, rustIsWS c = false) :
    trimL l = l := by
  rw [trimL, dropWhile_all_false _ _ h,
    dropWhile_all_false _ _ (fun c hc => h c (List.mem_reverse.mp hc)),
    List.reverse_reverse]

theorem trimL_space (l : List Char) (h : ∀ c ∈ l, rustIsWS c = false) :
    trimL (' ' :: l) = l := by
  rw [trimL, List.dropWhile_cons_of_pos (by decide), dropWhile_all_false _ _ h,
    dropWhile_all_false _ _ (fun c hc => h c (List.mem_reverse.mp hc)),
    List.reverse_reverse]

theorem trimL_eq_self (l : List Char)
    (hh : ∀ c, l.head? = some c → rustIsWS c = false)
    (hl : ∀ c, l.getLast? = some c → rustIsWS c = false) : trimL l = l := by
  cases l with
  | nil => rfl
  | cons a t =>
    rw [trimL, List.dropWhile_cons_of_neg (by simp [hh a rfl])]
    have h2 : (a :: t).reverse.dropWhile rustIsWS = (a :: t).reverse := by
      cases hrev : (a :: t).reverse with
      | nil => rfl
      | cons b rb =>
        have hb : (a :: t).getLast? = some b := by
          rw [← List.head?_reverse, hrev, List.head?_cons]
        rw [List.dropWhile_cons_of_neg (by simp [hl b hb])]
    rw [h2, List.reverse_reverse]

theorem splitWSGo_nil (acc : List Char) :
    splitWSGo [] acc = if acc.isEmpty then [] else [acc.reverse] := rfl

theorem splitWSGo_cons (c : Char) (rest acc : List Char) :
    splitWSGo (c :: rest) acc =
      if rustIsWS c then
        if acc.isEmpty then splitWSGo rest [] else acc.reverse :: splitWSGo rest []
      else splitWSGo rest (c :: acc) := rfl

theorem splitWSGo_append_word (w rest acc : List Char)
    (hw : ∀ c ∈ w, rustIsWS c = false) :
    splitWSGo (w ++ rest) acc = splitWSGo rest (w.reverse ++ acc) := by
  induction w generalizing acc with
  | nil => simp
  | cons a w ih =>
    rw [List.cons_append, splitWSGo_cons, if_neg (by simp [hw a (by simp)]),
      ih _ (fun c hc => hw c (List.mem_cons_of_mem _ hc))]
    simp

theorem splitWSGo_space (rest acc : List Char) (hacc : acc ≠ []) :
    splitWSGo (' ' :: rest) acc = acc.reverse :: splitWSGo rest [] := by
  rw [splitWSGo_cons, if_pos (by decide), if_neg (by simp [hacc])]

theorem splitWSGo_word_nil (w : List Char)
    (hw : ∀ c ∈ w, rustIsWS c = false) (hn : w ≠ []) :
    splitWSGo w [] = [w] := by
  have h := splitWSGo_append_word w [] [] hw
  rw [List.append_nil] at h
  rw [h, splitWSGo_nil, if_neg (by simp [hn])]
  simp

/-- `split_whitespace` on a three-word request line. -/
theorem splitWS_three_words (w1 w2 w3 : List Char)
    (h1 : ∀ c ∈ w1, rustIsWS c = false) (hn1 : w1 ≠ [])
    (h2 : ∀ c ∈ w2, rustIsWS c = false) (hn2 : w2 ≠ [])
    (h3 : ∀ c ∈ w3, rustIsWS c = false) (hn3 : w3 ≠ []) :
    splitWS (w1 ++ ' ' :: (w2 ++ ' ' :: w3)) = [w1, w2, w3] := by
  rw [splitWS, splitWSGo_append_word _ _ _ h1, List.append_nil,
    splitWSGo_space _ _ (by simp [hn1]), List.reverse_reverse,
    splitWSGo_append_word _ _ _ h2, List.append_nil,
    splitWSGo_space _ _ (by simp [hn2]), List.reverse_reverse,
    splitWSGo_word_nil _ h3 hn3]

theorem utf8LossyGo_ascii :
    ∀ (fuel : Nat) (l : List Char), l.length ≤ fuel →
      (∀ c ∈ l, c.toNat < 128) → utf8LossyGo fuel (l.map Char.toNat) = l := by
  intro fuel
  induction fuel with
  | zero =>
    intro l h1 _
    rw [List.length_eq_zero.mp (Nat.le_zero.mp h1)]
    rfl
  | succ fuel ih =>
    intro l h1 h2
    cases l with
    | nil => rfl
    | cons c cs =>
      have hb : c.toNat < 128 := h2 c (by simp)
      rw [List.map_cons]
      simp only [utf8LossyGo]
      rw [if_pos hb, Char.ofNat_toNat,
        ih cs (by simpa using h1)
          (fun d hd => h2 d (List.mem_cons_of_mem _ hd))]

theorem utf8Lossy_ascii (l : List Char) (h : ∀ c ∈ l, c.toNat < 128) :
    utf8Lossy (l.map Char.toNat) = l := by
  rw [utf8Lossy, List.length_map]
  exact utf8LossyGo_ascii _ l le_rfl h


theorem getLast?_append_ne_nil (l₁ l₂ : List Char) (h : l₂ ≠ []) :
    (l₁ ++ l₂).getLast? = l₂.getLast? := by
  rw [List.getLast?_append]
  cases hx : l₂.getLast? with
  | none => exact absurd (List.getLast?_eq_none_iff.mp hx) h
  | some b => rfl

theorem parse_http_request_eq (http_data first : List Char)
    (rest : List (List Char))
    (h : rustLines (unfold_http_headers http_data) = first :: rest) :
    parse_http_request http_data = parseRequestLines first rest := by
  simp only [parse_http_request]
  rw [h]

theorem parseRequestLines_eq (first : List Char) (rest : List (List Char))
    (m t : List Char) (ts : List (List Char))
    (h : splitWS (trimL first) = m :: t :: ts) :
    parseRequestLines first rest = parseTarget t rest := by
  simp only [parseRequestLines]
  rw [h]

/-- A complete request line plus a complete `Host` header line already parse
to a URL — no terminating double-CRLF is needed. -/
theorem parse_http_request_host_no_terminator (host path : List Char)
    (hhost : ∀ c ∈ host, rustIsWS c = false) (hhostn : host ≠ [])
    (hpath : ∀ c ∈ path, rustIsWS c = false)
    (habs1 : startsWith httpPre (path.dropWhile (· = '/')) = false)
    (habs2 : startsWith httpsPre (path.dropWhile (· = '/')) = false) :
    parse_http_request (("GET /".data ++ path ++ " HTTP/1.1".data) ++
        '\r' :: '\n' :: (("Host: ".data ++ host) ++ ['\r', '\n'])) =
      some (httpPre ++ host ++ '/' :: path.dropWhile (· = '/')) := by
  have hnlpath : '\n' ∉ path := fun hm => absurd (hpath '\n' hm) (by decide)
  have hnl1 : '\n' ∉ "GET /".data ++ path ++ " HTTP/1.1".data := by
    intro hm
    rcases (by simpa [or_assoc] using hm :
        '\n' ∈ "GET /".data ∨ '\n' ∈ path ∨ '\n' ∈ " HTTP/1.1".data) with
      h | h | h
    · exact absurd h (by decide)
    · exact hnlpath h
    · exact absurd h (by decide)
  have hnl2 : '\n' ∉ "Host: ".data ++ host := by
    intro hm
    rcases List.mem_append.mp hm with h | h
    · exact absurd h (by decide)
    · exact absurd (hhost '\n' h) (by decide)
  have hlines_in : rustLines (("GET /".data ++ path ++ " HTTP/1.1".data) ++
      '\r' :: '\n' :: (("Host: ".data ++ host) ++ ['\r', '\n'])) =
      [("GET /".data ++ path ++ " HTTP/1.1".data), ("Host: ".data ++ host)] := by
    rw [show ("GET /".data ++ path ++ " HTTP/1.1".data) ++
        '\r' :: '\n' :: (("Host: ".data ++ host) ++ ['\r', '\n']) =
        (("GET /".data ++ path ++ " HTTP/1.1".data) ++ ['\r']) ++
        '\n' :: ((("Host: ".data ++ host) ++ ['\r']) ++ '\n' :: []) by simp]
    rw [rustLines_cons _ _ hnl1, rustLines_cons _ _ hnl2, rustLines_nil]
  have hL2cont : isContLine ("Host: ".data ++ host) = false := rfl
  have hL2emp : ("Host: ".data ++ host).isEmpty = false := rfl
  have hunf : unfold_http_headers (("GET /".data ++ path ++ " HTTP/1.1".data) ++
      '\r' :: '\n' :: (("Host: ".data ++ host) ++ ['\r', '\n'])) =
      (("GET /".data ++ path ++ " HTTP/1.1".data) ++ ['\r', '\n']) ++
        (("Host: ".data ++ host) ++ ['\r', '\n']) := by
    rw [unfold_http_headers, hlines_in]
    show (("GET /".data ++ path ++ " HTTP/1.1".data) ++ ['\r', '\n']) ++
        unfoldGo [("Host: ".data ++ host)] [] = _
    rw [unfoldGo_cons, if_neg (by rw [hL2cont]; exact Bool.false_ne_true),
      if_pos List.isEmpty_nil, unfoldGo_nil,
      if_neg (by rw [hL2emp]; exact Bool.false_ne_true)]
  have hlines_unf : rustLines ((("GET /".data ++ path ++ " HTTP/1.1".data) ++
      ['\r', '\n']) ++ (("Host: ".data ++ host) ++ ['\r', '\n'])) =
      [("GET /".data ++ path ++ " HTTP/1.1".data), ("Host: ".data ++ host)] := by
    rw [show ((("GET /".data ++ path ++ " HTTP/1.1".data) ++ ['\r', '\n']) ++
        (("Host: ".data ++ host) ++ ['\r', '\n'])) =
        (("GET /".data ++ path ++ " HTTP/1.1".data) ++ ['\r']) ++
        '\n' :: ((("Host: ".data ++ host) ++ ['\r']) ++ '\n' :: []) by simp]
    rw [rustLines_cons _ _ hnl1, rustLines_cons _ _ hnl2, rustLines_nil]
  rw [parse_http_request_eq _ _ _ (by rw [hunf, hlines_unf])]
  have htrim1 : trimL ("GET /".data ++ path ++ " HTTP/1.1".data) =
      "GET /".data ++ path ++ " HTTP/1.1".data := by
    apply trimL_eq_self
    · intro c hc
      rw [show ("GET /".data ++ path ++ " HTTP/1.1".data).head? = some 'G'
        from rfl, Option.some_inj] at hc
      rw [← hc]
      decide
    · intro c hc
      rw [getLast?_append_ne_nil _ _ (by decide),
        show (" HTTP/1.1".data).getLast? = some '1' from rfl,
        Option.some_inj] at hc
      rw [← hc]
      decide
  have hsplit : splitWS (trimL ("GET /".data ++ path ++ " HTTP/1.1".data)) =
      ["GET".data, '/' :: path, "HTTP/1.1".data] := by
    rw [htrim1,
      show "GET /".data ++ path ++ " HTTP/1.1".data =
        "GET".data ++ ' ' :: (('/' :: path) ++ ' ' :: "HTTP/1.1".data) from rfl]
    apply splitWS_three_words
    · intro c hc
      fin_cases hc <;> decide
    · decide
    · intro c hc
      rcases List.mem_cons.mp hc with h | h
      · rw [h]; decide
      · exact hpath c h
    · simp
    · intro c hc
      fin_cases hc <;> decide
    · decide
  rw [parseRequestLines_eq _ _ _ _ _ hsplit]
  simp only [parseTarget]
  rw [List.dropWhile_cons_of_pos (by decide), if_neg (by simp [habs1, habs2]),
    dropWhile_idem]
  have htrim2 : trimL ("Host: ".data ++ host) = "Host: ".data ++ host := by
    apply trimL_eq_self
    · intro c hc
      rw [show ("Host: ".data ++ host).head? = some 'H' from rfl,
        Option.some_inj] at hc
      rw [← hc]
      decide
    · intro c hc
      rw [getLast?_append_ne_nil _ _ hhostn] at hc
      exact hhost c (List.mem_of_mem_getLast? hc)
  rw [findHostHeader, List.map_cons, List.map_nil, htrim2,
    List.takeWhile_cons_of_pos (by simp [hL2emp]), List.takeWhile_nil,
    List.findSome?_cons]
  rw [show hostOfLine ("Host: ".data ++ host) =
      (if eqIgnoreCase (trimL "Host".data) hostHdr then
        some (trimL (' ' :: host)) else none) from by
    rw [hostOfLine,
      show ("Host: ".data ++ host) = "Host".data ++ ':' :: (' ' :: host)
        from rfl,
      splitOnceChar_append (by decide)]
    rfl]
  rw [if_pos (by decide), trimL_space _ hhost]
  rfl


/-- C5 counterexample: input with a complete request line and Host header but
NO terminating double-CRLF and a relative (non-absolute) target still yields
a Recovered URL. -/
theorem C5_counterexample :
    (find_http_in_packet (strBytes "GET /p HTTP/1.1\r\nHost: h\r\n")).bind
        parse_http_request = some "http://h/p".data ∧
      findSub (strBytes "GET /p HTTP/1.1\r\nHost: h\r\n") CRLFCRLFbytes =
        none ∧
      startsWith httpPre "p".data = false ∧
      startsWith httpsPre "p".data = false := by decide

/-- C5 (amended): the terminating double-CRLF is not required.  For every
ASCII request consisting of a complete request line `GET /<path> HTTP/1.1`
and a complete `Host: <host>` header line (no double-CRLF anywhere, within
the 1024-byte partial-region cap, relative target), the extraction pipeline
already produces `http://<host>/<path>`. -/
theorem C5_amended_host_without_double_crlf (host path : List Char)
    (hhost : ∀ c ∈ host, rustIsWS c = false)
    (hhostA : ∀ c ∈ host, c.toNat < 128) (hhostn : host ≠ [])
    (hpath : ∀ c ∈ path, rustIsWS c = false)
    (hpathA : ∀ c ∈ path, c.toNat < 128)
    (habs1 : startsWith httpPre (path.dropWhile (· = '/')) = false)
    (habs2 : startsWith httpsPre (path.dropWhile (· = '/')) = false)
    (hlen : (("GET /".data ++ path ++ " HTTP/1.1".data) ++
      '\r' :: '\n' :: (("Host: ".data ++ host) ++ ['\r', '\n'])).length ≤ 1024)
    (hnoterm : findSub ((("GET /".data ++ path ++ " HTTP/1.1".data) ++
        '\r' :: '\n' :: (("Host: ".data ++ host) ++
          ['\r', '\n'])).map Char.toNat) CRLFCRLFbytes = none) :
    (find_http_in_packet ((("GET /".data ++ path ++ " HTTP/1.1".data) ++
        '\r' :: '\n' :: (("Host: ".data ++ host) ++
          ['\r', '\n'])).map Char.toNat)).bind parse_http_request =
      some (httpPre ++ host ++ '/' :: path.dropWhile (· = '/')) := by
  have hascii : ∀ c ∈ (("GET /".data ++ path ++ " HTTP/1.1".data) ++
      '\r' :: '\n' :: (("Host: ".data ++ host) ++ ['\r', '\n'])),
      c.toNat < 128 := by
    have hG : ∀ c ∈ "GET /".data, c.toNat < 128 := by decide
    have hH1 : ∀ c ∈ " HTTP/1.1".data, c.toNat < 128 := by decide
    have hHo : ∀ c ∈ "Host: ".data, c.toNat < 128 := by decide
    intro c hc
    rcases List.mem_append.mp hc with h | h
    · rcases List.mem_append.mp h with h1 | h1
      · rcases List.mem_append.mp h1 with h2 | h2
        · exact hG c h2
        · exact hpathA c h2
      · exact hH1 c h1
    · rcases List.mem_cons.mp h with h1 | h1
      · rw [h1]; decide
      · rcases List.mem_cons.mp h1 with h2 | h2
        · rw [h2]; decide
        · rcases List.mem_append.mp h2 with h3 | h3
          · rcases List.mem_append.mp h3 with h4 | h4
            · exact hHo c h4
            · exact hhostA c h4
          · rcases List.mem_cons.mp h3 with h4 | h4
            · rw [h4]; decide
            · rcases List.mem_cons.mp h4 with h5 | h5
              · rw [h5]; decide
              · simp at h5
  have hfind : find_http_in_packet ((("GET /".data ++ path ++
      " HTTP/1.1".data) ++ '\r' :: '\n' :: (("Host: ".data ++ host) ++
        ['\r', '\n'])).map Char.toNat) =
      some (("GET /".data ++ path ++ " HTTP/1.1".data) ++
        '\r' :: '\n' :: (("Host: ".data ++ host) ++ ['\r', '\n'])) := by
    have hpre : GETbytes.isPrefixOf ((("GET /".data ++ path ++
        " HTTP/1.1".data) ++ '\r' :: '\n' :: (("Host: ".data ++ host) ++
          ['\r', '\n'])).map Char.toNat) = true := rfl
    rw [find_http_in_packet, findSub_of_isPrefixOf hpre]
    simp only [Option.map_some', List.drop_zero]
    rw [hnoterm]
    show some (utf8Lossy (((("GET /".data ++ path ++ " HTTP/1.1".data) ++
        '\r' :: '\n' :: (("Host: ".data ++ host) ++
          ['\r', '\n'])).map Char.toNat).take
        (min ((("GET /".data ++ path ++ " HTTP/1.1".data) ++
        '\r' :: '\n' :: (("Host: ".data ++ host) ++
          ['\r', '\n'])).map Char.toNat).length 1024))) = _
    rw [Nat.min_eq_left (by rw [List.length_map]; exact hlen),
      List.take_of_length_le le_rfl, utf8Lossy_ascii _ hascii]
  rw [hfind, Option.some_bind]
  exact parse_http_request_host_no_terminator host path hhost hhostn hpath
    habs1 habs2

theorem C5_amended_host_without_double_crlf_witness :
    (find_http_in_packet ((("GET /".data ++ "p".data ++ " HTTP/1.1".data) ++
        '\r' :: '\n' :: (("Host: ".data ++ "h".data) ++
          ['\r', '\n'])).map Char.toNat)).bind parse_http_request =
      some (httpPre ++ "h".data ++ '/' :: "p".data.dropWhile (· = '/')) :=
  C5_amended_host_without_double_crlf "h".data "p".data (by decide) (by decide)
    (by decide) (by decide) (by decide) (by decide) (by decide) (by decide)
    (by decide)


theorem extract_salts_disjoint (p : List Nat) (s : Salts)
    (h : extract_salts p = some s) :
    s.metadata_salt = none ∨ s.replay_salt = none := by
  rw [extract_salts] at h
  simp only [Option.bind_eq_some] at h
  obtain ⟨hp, -, url, -, h⟩ := h
  split at h
  · exact absurd h (by simp)
  · exact from_url_salts_disjoint url s h

/-! ### Scenario equations for the dedup phase -/

theorem ingestPhase_none (meta replay : Finset Nat) (inp : ListenInput)
    (bufs : List (TcpStreamId × StreamBuffer)) :
    listenIngestPhase meta replay inp none bufs =
      (⟨meta, replay, pruneBufs bufs inp.now⟩, []) := rfl

theorem ingestPhase_not_new (meta replay : Finset Nat) (inp : ListenInput)
    (s : Salts) (bufs : List (TcpStreamId × StreamBuffer))
    (h : ¬ ((s.metadata_salt.isSome = true ∧ s.match_id ∉ meta) ∨
            (s.replay_salt.isSome = true ∧ s.match_id ∉ replay))) :
    listenIngestPhase meta replay inp (some s) bufs =
      (⟨meta, replay, pruneBufs bufs inp.now⟩, []) := by
  simp only [listenIngestPhase]
  rw [if_neg h]

theorem ingestPhase_err (meta replay : Finset Nat) (inp : ListenInput)
    (s : Salts) (bufs : List (TcpStreamId × StreamBuffer)) (e : IngestError)
    (hnew : (s.metadata_salt.isSome = true ∧ s.match_id ∉ meta) ∨
            (s.replay_salt.isSome = true ∧ s.match_id ∉ replay))
    (herr : (Salts.ingest s inp.net).1 = .error e) :
    listenIngestPhase meta replay inp (some s) bufs =
      (⟨meta, replay, bufs⟩, [.ingestCall s false]) := by
  simp only [listenIngestPhase]
  rw [if_pos hnew, herr]

theorem ingestPhase_ok (meta replay : Finset Nat) (inp : ListenInput)
    (s : Salts) (bufs : List (TcpStreamId × StreamBuffer))
    (hnew : (s.metadata_salt.isSome = true ∧ s.match_id ∉ meta) ∨
            (s.replay_salt.isSome = true ∧ s.match_id ∉ replay))
    (hok : (Salts.ingest s inp.net).1 = .ok ()) :
    listenIngestPhase meta replay inp (some s) bufs =
      (⟨if s.metadata_salt.isSome = true ∧ (metaIns s meta).card > 1000 then ∅
          else metaIns s meta,
        if s.replay_salt.isSome = true ∧ (repIns s replay).card > 1000 then ∅
          else repIns s replay,
        pruneBufs bufs inp.now⟩,
        .ingestCall s true ::
          ((if s.metadata_salt.isSome = true ∧ (metaIns s meta).card > 1000
              then [ListenEv.metaCleared] else []) ++
           (if s.replay_salt.isSome = true ∧ (repIns s replay).card > 1000
              then [ListenEv.replayCleared] else []))) := by
  simp only [listenIngestPhase]
  rw [if_pos hnew, hok]

/-! ### The dedup invariants of `listen` -/

/-- Every successful delivery of a salt of kind `fld` recorded in the trace
is still covered: its match id is in the dedup set `S`, or a reset event
(`clr`) occurs later in the trace. -/
def PairInvP (fld : Salts → Option Nat) (clr : ListenEv)
    (evs : List ListenEv) (S : Finset Nat) : Prop :=
  ∀ (i : Nat) (s : Salts), evs[i]? = some (ListenEv.ingestCall s true) →
    (fld s).isSome = true →
    s.match_id ∈ S ∨ ∃ k, i < k ∧ evs[k]? = some clr

/-- After a successful delivery of a (match id, kind) pair, any later
submission of the same pair has a reset of that kind's set in between. -/
def PairTraceOk (fld : Salts → Option Nat) (clr : ListenEv)
    (evs : List ListenEv) : Prop :=
  ∀ (i j : Nat) (s t : Salts) (ok : Bool), i < j →
    evs[i]? = some (ListenEv.ingestCall s true) →
    evs[j]? = some (ListenEv.ingestCall t ok) → s.match_id = t.match_id →
    (fld s).isSome = true → (fld t).isSome = true →
    ∃ k, i < k ∧ k < j ∧ evs[k]? = some clr

def MetaInvP : List ListenEv → Finset Nat → Prop :=
  PairInvP Salts.metadata_salt ListenEv.metaCleared

def RepInvP : List ListenEv → Finset Nat → Prop :=
  PairInvP Salts.replay_salt ListenEv.replayCleared

def TraceMetaOk : List ListenEv → Prop :=
  PairTraceOk Salts.metadata_salt ListenEv.metaCleared

def TraceRepOk : List ListenEv → Prop :=
  PairTraceOk Salts.replay_salt ListenEv.replayCleared

/-- A record that triggered an ingest call (the `is_new_*` condition held) and
has at most one salt populated is absent, for each populated kind, from the
corresponding dedup set. -/
theorem new_pair_absent (t : Salts) (meta replay : Finset Nat)
    (hdisj : t.metadata_salt = none ∨ t.replay_salt = none)
    (hnew : (t.metadata_salt.isSome = true ∧ t.match_id ∉ meta) ∨
            (t.replay_salt.isSome = true ∧ t.match_id ∉ replay)) :
    (t.metadata_salt.isSome = true → t.match_id ∉ meta) ∧
    (t.replay_salt.isSome = true → t.match_id ∉ replay) := by
  constructor
  · intro hms
    rcases hdisj with hd | hd
    · rw [hd] at hms
      exact absurd hms (by decide)
    · rcases hnew with ⟨-, hmem⟩ | ⟨hrs, -⟩
      · exact hmem
      · rw [hd] at hrs
        exact absurd hrs (by decide)
  · intro hrs
    rcases hdisj with hd | hd
    · rcases hnew with ⟨hms, -⟩ | ⟨-, hmem⟩
      · rw [hd] at hms
        exact absurd hms (by decide)
      · exact hmem
    · rw [hd] at hrs
      exact absurd hrs (by decide)

/-- In an event list whose tail holds only reset events, ingest-call events
can only sit at index 0. -/
theorem callsAtZero (hd : ListenEv) (tail : List ListenEv)
    (htail : ∀ x ∈ tail, x = ListenEv.metaCleared ∨ x = ListenEv.replayCleared)
    (n : Nat) (s : Salts) (ok : Bool)
    (h : (hd :: tail)[n]? = some (ListenEv.ingestCall s ok)) : n = 0 := by
  cases n with
  | zero => rfl
  | succ n =>
    rw [List.getElem?_cons_succ] at h
    have hmem : ListenEv.ingestCall s ok ∈ tail := List.getElem?_mem h
    rcases htail _ hmem with h1 | h1 <;> exact absurd h1 (by simp)

theorem PairInvP_extend (fld : Salts → Option Nat) (clr : ListenEv)
    (evs0 e1 : List ListenEv) (S T : Finset Nat)
    (hm : PairInvP fld clr evs0 S)
    (hcase : (∀ m ∈ S, m ∈ T) ∨ ∃ k : Nat, e1[k]? = some clr)
    (hnew : ∀ (n : Nat) (s : Salts),
      e1[n]? = some (ListenEv.ingestCall s true) → (fld s).isSome = true →
      s.match_id ∈ T ∨ ∃ k, n < k ∧ e1[k]? = some clr) :
    PairInvP fld clr (evs0 ++ e1) T := by
  intro i s hi hfs
  by_cases hlt : i < evs0.length
  · rw [List.getElem?_append_left hlt] at hi
    rcases hm i s hi hfs with hmem | ⟨k, hik, hk⟩
    · rcases hcase with hsub | ⟨k, hk⟩
      · exact Or.inl (hsub _ hmem)
      · refine Or.inr ⟨evs0.length + k, by omega, ?_⟩
        rw [List.getElem?_append_right (by omega)]
        simpa using hk
    · refine Or.inr ⟨k, hik, ?_⟩
      have hklen : k < evs0.length := (List.getElem?_eq_some.mp hk).1
      rw [List.getElem?_append_left hklen]
      exact hk
  · push_neg at hlt
    rw [List.getElem?_append_right hlt] at hi
    rcases hnew _ _ hi hfs with hmem | ⟨k, hik, hk⟩
    · exact Or.inl hmem
    · refine Or.inr ⟨evs0.length + k, by omega, ?_⟩
      rw [List.getElem?_append_right (by omega)]
      simpa using hk

theorem PairTraceOk_extend (fld : Salts → Option Nat) (clr : ListenEv)
    (evs0 e1 : List ListenEv) (S : Finset Nat)
    (hm : PairInvP fld clr evs0 S) (tm : PairTraceOk fld clr evs0)
    (hone : ∀ (n : Nat) (s : Salts) (ok : Bool),
      e1[n]? = some (ListenEv.ingestCall s ok) → n = 0)
    (habs : ∀ (s : Salts) (ok : Bool),
      e1[0]? = some (ListenEv.ingestCall s ok) → (fld s).isSome = true →
      s.match_id ∉ S) :
    PairTraceOk fld clr (evs0 ++ e1) := by
  intro i j s t ok hij hi hj hmid hfs hft
  by_cases hjlt : j < evs0.length
  · have hilt : i < evs0.length := lt_trans hij hjlt
    rw [List.getElem?_append_left hilt] at hi
    rw [List.getElem?_append_left hjlt] at hj
    obtain ⟨k, h1, h2, h3⟩ := tm i j s t ok hij hi hj hmid hfs hft
    have hklen : k < evs0.length := lt_trans h2 hjlt
    refine ⟨k, h1, h2, ?_⟩
    rw [List.getElem?_append_left hklen]
    exact h3
  · push_neg at hjlt
    rw [List.getElem?_append_right hjlt] at hj
    have hj0 : j - evs0.length = 0 := hone _ _ _ hj
    rw [hj0] at hj
    by_cases hilt : i < evs0.length
    · rw [List.getElem?_append_left hilt] at hi
      rcases hm i s hi hfs with hmem | ⟨k, hik, hk⟩
      · have habs2 := habs t ok hj hft
        rw [hmid] at hmem
        exact absurd hmem habs2
      · have hklen : k < evs0.length := (List.getElem?_eq_some.mp hk).1
        refine ⟨k, hik, by omega, ?_⟩
        rw [List.getElem?_append_left hklen]
        exact hk
    · push_neg at hilt
      rw [List.getElem?_append_right hilt] at hi
      have hi0 : i - evs0.length = 0 := hone _ _ _ hi
      omega



theorem mem_metaIns_of_mem (t : Salts) (meta : Finset Nat) (m : Nat)
    (h : m ∈ meta) : m ∈ metaIns t meta := by
  rw [metaIns]
  split
  · exact Finset.mem_insert_of_mem h
  · exact h

theorem mem_repIns_of_mem (t : Salts) (replay : Finset Nat) (m : Nat)
    (h : m ∈ replay) : m ∈ repIns t replay := by
  rw [repIns]
  split
  · exact Finset.mem_insert_of_mem h
  · exact h

theorem self_mem_metaIns (t : Salts) (meta : Finset Nat)
    (h : t.metadata_salt.isSome = true) : t.match_id ∈ metaIns t meta := by
  rw [metaIns, if_pos h]
  exact Finset.mem_insert_self _ _

theorem self_mem_repIns (t : Salts) (replay : Finset Nat)
    (h : t.replay_salt.isSome = true) : t.match_id ∈ repIns t replay := by
  rw [repIns, if_pos h]
  exact Finset.mem_insert_self _ _

/-- One dedup-phase step preserves all four dedup invariants. -/
theorem ingestPhase_preserves (meta replay : Finset Nat) (inp : ListenInput)
    (salts : Option Salts) (bufs : List (TcpStreamId × StreamBuffer))
    (evs0 : List ListenEv)
    (hdisj : ∀ t, salts = some t → t.metadata_salt = none ∨ t.replay_salt = none)
    (hm : MetaInvP evs0 meta) (hr : RepInvP evs0 replay)
    (tm : TraceMetaOk evs0) (tr : TraceRepOk evs0) :
    MetaInvP (evs0 ++ (listenIngestPhase meta replay inp salts bufs).2)
        (listenIngestPhase meta replay inp salts bufs).1.ingested_metadata ∧
      RepInvP (evs0 ++ (listenIngestPhase meta replay inp salts bufs).2)
        (listenIngestPhase meta replay inp salts bufs).1.ingested_replay ∧
      TraceMetaOk (evs0 ++ (listenIngestPhase meta replay inp salts bufs).2) ∧
      TraceRepOk (evs0 ++ (listenIngestPhase meta replay inp salts bufs).2) := by
  cases salts with
  | none =>
    rw [ingestPhase_none]
    simpa using ⟨hm, hr, tm, tr⟩
  | some t =>
    have hdisj' := hdisj t rfl
    by_cases hnew : (t.metadata_salt.isSome = true ∧ t.match_id ∉ meta) ∨
        (t.replay_salt.isSome = true ∧ t.match_id ∉ replay)
    · have habs := new_pair_absent t meta replay hdisj' hnew
      have hheadeq : ∀ (okh : Bool) (tail : List ListenEv) (s : Salts) (ok : Bool),
          (ListenEv.ingestCall t okh :: tail)[0]? =
            some (ListenEv.ingestCall s ok) → s = t := by
        intro okh tail s ok h
        rw [List.getElem?_cons_zero, Option.some_inj] at h
        injection h with h1 h2
        exact h1.symm
      cases hres : (Salts.ingest t inp.net).1 with
      | error e =>
        rw [ingestPhase_err _ _ _ _ _ e hnew hres]
        have htail : ∀ x ∈ ([] : List ListenEv),
            x = ListenEv.metaCleared ∨ x = ListenEv.replayCleared := by simp
        have hone := callsAtZero (ListenEv.ingestCall t false) [] htail
        have hnotrue : ∀ (n : Nat) (s : Salts),
            ([ListenEv.ingestCall t false] : List ListenEv)[n]? =
              some (ListenEv.ingestCall s true) → False := by
          intro n s h
          have h0 := hone n s true h
          subst h0
          rw [List.getElem?_cons_zero, Option.some_inj] at h
          injection h with h1 h2
          exact Bool.false_ne_true h2
        refine ⟨?_, ?_, ?_, ?_⟩
        · exact PairInvP_extend _ _ _ _ _ _ hm (Or.inl fun m hmm => hmm)
            (fun n s h _ => absurd h (fun hh => hnotrue n s hh))
        · exact PairInvP_extend _ _ _ _ _ _ hr (Or.inl fun m hmm => hmm)
            (fun n s h _ => absurd h (fun hh => hnotrue n s hh))
        · exact PairTraceOk_extend _ _ _ _ meta hm tm hone
            (fun s ok h hf => by
              have hst := hheadeq false [] s ok h
              subst hst
              exact habs.1 hf)
        · exact PairTraceOk_extend _ _ _ _ replay hr tr hone
            (fun s ok h hf => by
              have hst := hheadeq false [] s ok h
              subst hst
              exact habs.2 hf)
      | ok u =>
        cases u
        rw [ingestPhase_ok _ _ _ _ _ hnew hres]
        by_cases hMC : t.metadata_salt.isSome = true ∧
            (metaIns t meta).card > 1000 <;>
          by_cases hRC : t.replay_salt.isSome = true ∧
              (repIns t replay).card > 1000
        · simp only [if_pos hMC, if_pos hRC]
          have htail : ∀ x ∈ ([ListenEv.metaCleared] ++ [ListenEv.replayCleared]),
              x = ListenEv.metaCleared ∨ x = ListenEv.replayCleared := by
            intro x hx
            simpa using hx
          have hone := callsAtZero (ListenEv.ingestCall t true) _ htail
          refine ⟨?_, ?_, ?_, ?_⟩
          · exact PairInvP_extend _ _ _ _ _ _ hm (Or.inr ⟨1, rfl⟩)
              (fun n s h _ => by
                have h0 := hone n s true h
                subst h0
                exact Or.inr ⟨1, Nat.zero_lt_one, rfl⟩)
          · exact PairInvP_extend _ _ _ _ _ _ hr (Or.inr ⟨2, rfl⟩)
              (fun n s h _ => by
                have h0 := hone n s true h
                subst h0
                exact Or.inr ⟨2, by omega, rfl⟩)
          · exact PairTraceOk_extend _ _ _ _ meta hm tm hone
              (fun s ok h hf => by
                have hst := hheadeq true _ s ok h
                subst hst
                exact habs.1 hf)
          · exact PairTraceOk_extend _ _ _ _ replay hr tr hone
              (fun s ok h hf => by
                have hst := hheadeq true _ s ok h
                subst hst
                exact habs.2 hf)
        · simp only [if_pos hMC, if_neg hRC]
          have htail : ∀ x ∈ ([ListenEv.metaCleared] ++ ([] : List ListenEv)),
              x = ListenEv.metaCleared ∨ x = ListenEv.replayCleared := by
            intro x hx
            simp at hx
            exact Or.inl hx
          have hone := callsAtZero (ListenEv.ingestCall t true) _ htail
          refine ⟨?_, ?_, ?_, ?_⟩
          · exact PairInvP_extend _ _ _ _ _ _ hm (Or.inr ⟨1, rfl⟩)
              (fun n s h _ => by
                have h0 := hone n s true h
                subst h0
                exact Or.inr ⟨1, Nat.zero_lt_one, rfl⟩)
          · exact PairInvP_extend _ _ _ _ _ _ hr
              (Or.inl fun m hmm => mem_repIns_of_mem t replay m hmm)
              (fun n s h hf => by
                have h0 := hone n s true h
                subst h0
                have hst := hheadeq true _ s true h
                subst hst
                exact Or.inl (self_mem_repIns s replay hf))
          · exact PairTraceOk_extend _ _ _ _ meta hm tm hone
              (fun s ok h hf => by
                have hst := hheadeq true _ s ok h
                subst hst
                exact habs.1 hf)
          · exact PairTraceOk_extend _ _ _ _ replay hr tr hone
              (fun s ok h hf => by
                have hst := hheadeq true _ s ok h
                subst hst
                exact habs.2 hf)
        · simp only [if_neg hMC, if_pos hRC]
          have htail : ∀ x ∈ (([] : List ListenEv) ++ [ListenEv.replayCleared]),
              x = ListenEv.metaCleared ∨ x = ListenEv.replayCleared := by
            intro x hx
            simp at hx
            exact Or.inr hx
          have hone := callsAtZero (ListenEv.ingestCall t true) _ htail
          refine ⟨?_, ?_, ?_, ?_⟩
          · exact PairInvP_extend _ _ _ _ _ _ hm
              (Or.inl fun m hmm => mem_metaIns_of_mem t meta m hmm)
              (fun n s h hf => by
                have h0 := hone n s true h
                subst h0
                have hst := hheadeq true _ s true h
                subst hst
                exact Or.inl (self_mem_metaIns s meta hf))
          · exact PairInvP_extend _ _ _ _ _ _ hr (Or.inr ⟨1, rfl⟩)
              (fun n s h _ => by
                have h0 := hone n s true h
                subst h0
                exact Or.inr ⟨1, Nat.zero_lt_one, rfl⟩)
          · exact PairTraceOk_extend _ _ _ _ meta hm tm hone
              (fun s ok h hf => by
                have hst := hheadeq true _ s ok h
                subst hst
                exact habs.1 hf)
          · exact PairTraceOk_extend _ _ _ _ replay hr tr hone
              (fun s ok h hf => by
                have hst := hheadeq true _ s ok h
                subst hst
                exact habs.2 hf)
        · simp only [if_neg hMC, if_neg hRC]
          have htail : ∀ x ∈ (([] : List ListenEv) ++ ([] : List ListenEv)),
              x = ListenEv.metaCleared ∨ x = ListenEv.replayCleared := by simp
          have hone := callsAtZero (ListenEv.ingestCall t true) _ htail
          refine ⟨?_, ?_, ?_, ?_⟩
          · exact PairInvP_extend _ _ _ _ _ _ hm
              (Or.inl fun m hmm => mem_metaIns_of_mem t meta m hmm)
              (fun n s h hf => by
                have h0 := hone n s true h
                subst h0
                have hst := hheadeq true _ s true h
                subst hst
                exact Or.inl (self_mem_metaIns s meta hf))
          · exact PairInvP_extend _ _ _ _ _ _ hr
              (Or.inl fun m hmm => mem_repIns_of_mem t replay m hmm)
              (fun n s h hf => by
                have h0 := hone n s true h
                subst h0
                have hst := hheadeq true _ s true h
                subst hst
                exact Or.inl (self_mem_repIns s replay hf))
          · exact PairTraceOk_extend _ _ _ _ meta hm tm hone
              (fun s ok h hf => by
                have hst := hheadeq true _ s ok h
                subst hst
                exact habs.1 hf)
          · exact PairTraceOk_extend _ _ _ _ replay hr tr hone
              (fun s ok h hf => by
                have hst := hheadeq true _ s ok h
                subst hst
                exact habs.2 hf)
    · rw [ingestPhase_not_new _ _ _ _ _ hnew]
      simpa using ⟨hm, hr, tm, tr⟩


/-- An ingest call is made only for a pair absent from its dedup set. -/
theorem ingestPhase_call_absent (meta replay : Finset Nat) (inp : ListenInput)
    (salts : Option Salts) (bufs : List (TcpStreamId × StreamBuffer))
    (s : Salts) (ok : Bool)
    (hdisj : ∀ t, salts = some t → t.metadata_salt = none ∨ t.replay_salt = none)
    (hev : ListenEv.ingestCall s ok ∈
      (listenIngestPhase meta replay inp salts bufs).2) :
    (s.metadata_salt.isSome = true → s.match_id ∉ meta) ∧
    (s.replay_salt.isSome = true → s.match_id ∉ replay) := by
  cases salts with
  | none =>
    rw [ingestPhase_none] at hev
    simp at hev
  | some t =>
    have hdisj' := hdisj t rfl
    by_cases hnew : (t.metadata_salt.isSome = true ∧ t.match_id ∉ meta) ∨
        (t.replay_salt.isSome = true ∧ t.match_id ∉ replay)
    · have habs := new_pair_absent t meta replay hdisj' hnew
      cases hres : (Salts.ingest t inp.net).1 with
      | error e =>
        rw [ingestPhase_err _ _ _ _ _ e hnew hres] at hev
        simp only [List.mem_singleton] at hev
        injection hev with h1 h2
        subst h1
        exact habs
      | ok u =>
        cases u
        rw [ingestPhase_ok _ _ _ _ _ hnew hres] at hev
        have hst : s = t := by
          rcases List.mem_cons.mp hev with h | h
          · injection h with h1 h2
            try exact h1
          · exfalso
            rcases List.mem_append.mp h with hx | hx <;>
              (split at hx <;> simp at hx)
        subst hst
        exact habs
    · rw [ingestPhase_not_new _ _ _ _ _ hnew] at hev
      simp at hev

/-- A match id present in the metadata set after the phase was there before,
or was inserted by a successful metadata delivery in this very step. -/
theorem ingestPhase_meta_source (meta replay : Finset Nat) (inp : ListenInput)
    (salts : Option Salts) (bufs : List (TcpStreamId × StreamBuffer)) (m : Nat)
    (hm : m ∈ (listenIngestPhase meta replay inp salts bufs).1.ingested_metadata) :
    m ∈ meta ∨ ∃ s : Salts, ListenEv.ingestCall s true ∈
        (listenIngestPhase meta replay inp salts bufs).2 ∧
      s.match_id = m ∧ s.metadata_salt.isSome = true := by
  cases salts with
  | none =>
    rw [ingestPhase_none] at hm ⊢
    exact Or.inl hm
  | some t =>
    by_cases hnew : (t.metadata_salt.isSome = true ∧ t.match_id ∉ meta) ∨
        (t.replay_salt.isSome = true ∧ t.match_id ∉ replay)
    · cases hres : (Salts.ingest t inp.net).1 with
      | error e =>
        rw [ingestPhase_err _ _ _ _ _ e hnew hres] at hm ⊢
        exact Or.inl hm
      | ok u =>
        cases u
        rw [ingestPhase_ok _ _ _ _ _ hnew hres] at hm ⊢
        by_cases hMC : t.metadata_salt.isSome = true ∧
            (metaIns t meta).card > 1000
        · rw [if_pos hMC] at hm
          simp at hm
        · rw [if_neg hMC] at hm
          by_cases hms : t.metadata_salt.isSome = true
          · rw [metaIns, if_pos hms] at hm
            rcases Finset.mem_insert.mp hm with h | h
            · exact Or.inr ⟨t, List.mem_cons_self _ _, h.symm, hms⟩
            · exact Or.inl h
          · rw [metaIns, if_neg hms] at hm
            exact Or.inl hm
    · rw [ingestPhase_not_new _ _ _ _ _ hnew] at hm ⊢
      exact Or.inl hm

/-- Replay counterpart of `ingestPhase_meta_source`. -/
theorem ingestPhase_rep_source (meta replay : Finset Nat) (inp : ListenInput)
    (salts : Option Salts) (bufs : List (TcpStreamId × StreamBuffer)) (m : Nat)
    (hm : m ∈ (listenIngestPhase meta replay inp salts bufs).1.ingested_replay) :
    m ∈ replay ∨ ∃ s : Salts, ListenEv.ingestCall s true ∈
        (listenIngestPhase meta replay inp salts bufs).2 ∧
      s.match_id = m ∧ s.replay_salt.isSome = true := by
  cases salts with
  | none =>
    rw [ingestPhase_none] at hm ⊢
    exact Or.inl hm
  | some t =>
    by_cases hnew : (t.metadata_salt.isSome = true ∧ t.match_id ∉ meta) ∨
        (t.replay_salt.isSome = true ∧ t.match_id ∉ replay)
    · cases hres : (Salts.ingest t inp.net).1 with
      | error e =>
        rw [ingestPhase_err _ _ _ _ _ e hnew hres] at hm ⊢
        exact Or.inl hm
      | ok u =>
        cases u
        rw [ingestPhase_ok _ _ _ _ _ hnew hres] at hm ⊢
        by_cases hRC : t.replay_salt.isSome = true ∧
            (repIns t replay).card > 1000
        · rw [if_pos hRC] at hm
          simp at hm
        · rw [if_neg hRC] at hm
          by_cases hrs : t.replay_salt.isSome = true
          · rw [repIns, if_pos hrs] at hm
            rcases Finset.mem_insert.mp hm with h | h
            · exact Or.inr ⟨t, List.mem_cons_self _ _, h.symm, hrs⟩
            · exact Or.inl h
          · rw [repIns, if_neg hrs] at hm
            exact Or.inl hm
    · rw [ingestPhase_not_new _ _ _ _ _ hnew] at hm ⊢
      exact Or.inl hm

/-- Lift `ingestPhase_call_absent` to a whole `listen` iteration. -/
theorem listenStep_call_absent (st : ListenState) (inp : ListenInput)
    (s : Salts) (ok : Bool)
    (hev : ListenEv.ingestCall s ok ∈ (listenStep st inp).2) :
    (s.metadata_salt.isSome = true → s.match_id ∉ st.ingested_metadata) ∧
    (s.replay_salt.isSome = true → s.match_id ∉ st.ingested_replay) := by
  rw [listenStep] at hev
  cases hid : TcpStreamId.from_packet inp.payload with
  | none =>
    rw [hid] at hev
    simp at hev
  | some stream_id =>
    rw [hid] at hev
    exact ingestPhase_call_absent _ _ _ _ _ _ _
      (fun t ht => extract_salts_disjoint _ t ht) hev

/-- Lift the insertion-source lemmas to a whole `listen` iteration. -/
theorem listenStep_meta_source (st : ListenState) (inp : ListenInput) (m : Nat)
    (hm : m ∈ (listenStep st inp).1.ingested_metadata) :
    m ∈ st.ingested_metadata ∨ ∃ s : Salts,
      ListenEv.ingestCall s true ∈ (listenStep st inp).2 ∧
      s.match_id = m ∧ s.metadata_salt.isSome = true := by
  rw [listenStep] at hm ⊢
  revert hm
  cases hid : TcpStreamId.from_packet inp.payload with
  | none =>
    intro hm
    exact Or.inl hm
  | some stream_id =>
    intro hm
    exact ingestPhase_meta_source _ _ _ _ _ _ hm

theorem listenStep_rep_source (st : ListenState) (inp : ListenInput) (m : Nat)
    (hm : m ∈ (listenStep st inp).1.ingested_replay) :
    m ∈ st.ingested_replay ∨ ∃ s : Salts,
      ListenEv.ingestCall s true ∈ (listenStep st inp).2 ∧
      s.match_id = m ∧ s.replay_salt.isSome = true := by
  rw [listenStep] at hm ⊢
  revert hm
  cases hid : TcpStreamId.from_packet inp.payload with
  | none =>
    intro hm
    exact Or.inl hm
  | some stream_id =>
    intro hm
    exact ingestPhase_rep_source _ _ _ _ _ _ hm

/-- One `listen` iteration preserves all four dedup invariants. -/
theorem listenStep_preserves (st : ListenState) (inp : ListenInput)
    (evs0 : List ListenEv)
    (hm : MetaInvP evs0 st.ingested_metadata)
    (hr : RepInvP evs0 st.ingested_replay)
    (tm : TraceMetaOk evs0) (tr : TraceRepOk evs0) :
    MetaInvP (evs0 ++ (listenStep st inp).2)
        (listenStep st inp).1.ingested_metadata ∧
      RepInvP (evs0 ++ (listenStep st inp).2)
        (listenStep st inp).1.ingested_replay ∧
      TraceMetaOk (evs0 ++ (listenStep st inp).2) ∧
      TraceRepOk (evs0 ++ (listenStep st inp).2) := by
  rw [listenStep]
  cases hid : TcpStreamId.from_packet inp.payload with
  | none => simpa using ⟨hm, hr, tm, tr⟩
  | some stream_id =>
    exact ingestPhase_preserves _ _ _ _ _ _
      (fun t ht => extract_salts_disjoint _ t ht) hm hr tm tr

/-- The whole run preserves all four dedup invariants. -/
theorem runListen_preserves (inputs : List ListenInput) :
    ∀ (st : ListenState) (evs0 : List ListenEv),
      MetaInvP evs0 st.ingested_metadata → RepInvP evs0 st.ingested_replay →
      TraceMetaOk evs0 → TraceRepOk evs0 →
      MetaInvP (evs0 ++ (runListen st inputs).2)
          (runListen st inputs).1.ingested_metadata ∧
        RepInvP (evs0 ++ (runListen st inputs).2)
          (runListen st inputs).1.ingested_replay ∧
        TraceMetaOk (evs0 ++ (runListen st inputs).2) ∧
        TraceRepOk (evs0 ++ (runListen st inputs).2) := by
  induction inputs with
  | nil =>
    intro st evs0 hm hr tm tr
    rw [runListen]
    simpa using ⟨hm, hr, tm, tr⟩
  | cons inp rest ih =>
    intro st evs0 hm hr tm tr
    obtain ⟨hm1, hr1, tm1, tr1⟩ := listenStep_preserves st inp evs0 hm hr tm tr
    have hrun := ih (listenStep st inp).1 (evs0 ++ (listenStep st inp).2)
      hm1 hr1 tm1 tr1
    rw [runListen]
    simpa [List.append_assoc] using hrun


/-- C1: in the `listen` loop, an ingest call for a (match_id, salt kind) pair
happens only when the pair is absent from the corresponding dedup set; only a
successful delivery inserts the pair into its set; and along any run, once a
pair has been successfully delivered it is not submitted again unless the
corresponding dedup set was cleared (the reset that follows growing past
1,000 entries) in between. -/
theorem C1_dedup_at_most_once (inputs : List ListenInput) :
    (∀ (st : ListenState) (inp : ListenInput) (s : Salts) (ok : Bool),
      ListenEv.ingestCall s ok ∈ (listenStep st inp).2 →
      (s.metadata_salt.isSome = true → s.match_id ∉ st.ingested_metadata) ∧
      (s.replay_salt.isSome = true → s.match_id ∉ st.ingested_replay)) ∧
    (∀ (st : ListenState) (inp : ListenInput) (m : Nat),
      m ∈ (listenStep st inp).1.ingested_metadata →
      m ∈ st.ingested_metadata ∨ ∃ s : Salts,
        ListenEv.ingestCall s true ∈ (listenStep st inp).2 ∧
        s.match_id = m ∧ s.metadata_salt.isSome = true) ∧
    (∀ (st : ListenState) (inp : ListenInput) (m : Nat),
      m ∈ (listenStep st inp).1.ingested_replay →
      m ∈ st.ingested_replay ∨ ∃ s : Salts,
        ListenEv.ingestCall s true ∈ (listenStep st inp).2 ∧
        s.match_id = m ∧ s.replay_salt.isSome = true) ∧
    TraceMetaOk (listenTrace inputs) ∧ TraceRepOk (listenTrace inputs) := by
  have hinit : MetaInvP ([] : List ListenEv) (∅ : Finset Nat) := by
    intro i s hi _
    simp at hi
  have hinit2 : RepInvP ([] : List ListenEv) (∅ : Finset Nat) := by
    intro i s hi _
    simp at hi
  have hinit3 : TraceMetaOk ([] : List ListenEv) := by
    intro i j s t ok _ hi
    simp at hi
  have hinit4 : TraceRepOk ([] : List ListenEv) := by
    intro i j s t ok _ hi
    simp at hi
  obtain ⟨-, -, htm, htr⟩ := runListen_preserves inputs initialListenState []
    hinit hinit2 hinit3 hinit4
  refine ⟨fun st inp s ok hev => listenStep_call_absent st inp s ok hev,
    fun st inp m hm => listenStep_meta_source st inp m hm,
    fun st inp m hm => listenStep_rep_source st inp m hm, ?_, ?_⟩
  · rw [listenTrace]
    simpa using htm
  · rw [listenTrace]
    simpa using htr

theorem C1_dedup_at_most_once_witness :
    sampleSalts.match_id ∉ initialListenState.ingested_metadata :=
  ((C1_dedup_at_most_once []).1 initialListenState sampleInput sampleSalts true
    (by decide)).1 (by decide)


end Ingest
